import Mathlib

/-!
Verification of the Skippy daemon: a shallow embedding of the parts of the
source that the checked properties concern, together with theorems settling
each property.

Components modelled here:
* a JavaScript value model for tool arguments and stored JSON blobs;
* PatchFileTool.buildArgsFromAction, the static argument transformer;
* MemoryTool.deepMerge and MemoryTool.updateSkill, the skill-update logic;
* MemoryTool.buildSearchWhere, the tokenized search predicate;
* CronJobsTool.shouldFire and the scheduler tick for schedule jobs;
* the tool registry lookup of executeToolCall;
* the runPrompt agentic loop: parsing outcomes, the continue decision,
  failure forcing, abort checks, loop-limit continuations and their
  affirmative-resume logic.
-/

/-- A JavaScript value as it appears in tool arguments and stored JSON.
Numbers are modelled as integers (the checked properties use none others).
The ordered field list of an object and the element list of an array are
represented by dedicated chain constructors of the same inductive
(fnil/fcons and anil/acons), keeping the type non-nested so that every
function over it is structurally recursive and computes in the kernel.
Terms where jobj or jarr is applied to a non-chain never arise. -/
inductive JVal where
  | jnull
  | jbool (b : Bool)
  | jnum (n : Int)
  | jstr (s : String)
  | jarr (elems : JVal)
  | jobj (fields : JVal)
  | anil
  | acons (head : JVal) (tail : JVal)
  | fnil
  | fcons (key : String) (value : JVal) (rest : JVal)
  deriving DecidableEq

/-- Builds an object field chain from a list, for readable statements. -/
def jfields : List (String × JVal) → JVal
  | [] => .fnil
  | (k, v) :: r => .fcons k v (jfields r)

/-- Builds an array element chain from a list, for readable statements. -/
def jelems : List JVal → JVal
  | [] => .anil
  | v :: r => .acons v (jelems r)

/-- JavaScript truthiness of a value. Absent (undefined) is handled by
Option at use sites and is falsy like null. -/
def jtruthy : JVal → Bool
  | .jnull => false
  | .jbool b => b
  | .jnum n => n != 0
  | .jstr s => s ≠ ""
  | _ => true

/-- Property read on an object field chain: first binding wins, as keys are
unique in a JS object. Absent key gives none, standing for undefined. -/
def objGet : JVal → String → Option JVal
  | .fcons k' v rest, k => if k' = k then some v else objGet rest k
  | _, _ => none

/-- Property write: update in place if the key exists, append otherwise,
matching JS object insertion-order semantics. -/
def objSet : JVal → String → JVal → JVal
  | .fcons k' v' rest, k, v =>
    if k' = k then .fcons k' v rest else .fcons k' v' (objSet rest k v)
  | _, k, v => .fcons k v .fnil

/-- Property delete, as the JS delete operator on an object. -/
def objDel : JVal → String → JVal
  | .fcons k' v' rest, k => if k' = k then objDel rest k else .fcons k' v' (objDel rest k)
  | f, _ => f

/-- Discriminator used to separate unequal JVal terms in counterexamples:
the value of an object at a key, with null for everything else. -/
def atKey (v : JVal) (k : String) : JVal :=
  match v with
  | .jobj fs => (objGet fs k).getD .jnull
  | _ => .jnull

/-- Discriminator: number of fields of an object, zero for anything else. -/
def objLen : JVal → Nat
  | .jobj fs => fieldCount fs
  | _ => 0
where
  fieldCount : JVal → Nat
    | .fcons _ _ rest => fieldCount rest + 1
    | _ => 0

namespace PatchFileTool

/-- The arguments value after the initial defaulting in buildArgsFromAction:
a missing or falsy arguments field is replaced by an empty object. -/
def origArgs (argumentsField : Option JVal) : JVal :=
  match argumentsField with
  | none => .jobj .fnil
  | some v => if jtruthy v then v else .jobj .fnil

/-- Left-to-right short-circuit chain of truthy property reads, as in the
source expression args.filepath or args.path or args.file or null. -/
def chainTruthy (fs : JVal) : List String → Option JVal
  | [] => none
  | k :: ks =>
    match objGet fs k with
    | some v => if jtruthy v then some v else chainTruthy fs ks
    | none => chainTruthy fs ks

/-- First key of the list that is present on the object (a presence test
against undefined, so even null or falsy values are returned). -/
def firstPresent (fs : JVal) : List String → Option JVal
  | [] => none
  | k :: ks =>
    match objGet fs k with
    | some v => some v
    | none => firstPresent fs ks

/-- PatchFileTool.buildArgsFromAction: normalizes the arguments of an action
into the positional array form that PatchFileTool.run consumes. Mirrors the
source case by case: array passed through; object probed for filepath and
changes under several key names; anything else wrapped in an array. -/
def buildArgsFromAction (argumentsField : Option JVal) : JVal :=
  match origArgs argumentsField with
  | .jarr xs => .jarr xs
  | .jobj fs =>
    match chainTruthy fs ["filepath", "path", "file"],
        chainTruthy fs ["changes", "patches", "edits"] with
    | some fp, some ch => .jarr (jelems [fp, ch])
    | some fp, none =>
      (match firstPresent fs ["patch", "content", "diff", "data"] with
       | some v => .jarr (jelems [fp, v])
       | none => .jarr (jelems [fp]))
    | none, some ch =>
      (match firstPresent fs ["filepath", "path", "file", "filename"] with
       | some v => .jarr (jelems [v, ch])
       | none => .jarr (jelems [ch]))
    | none, none => .jarr .anil
  | v => .jarr (jelems [v])

end PatchFileTool

namespace MemoryTool

/-- MemoryTool deep merge of a source object into a target object, exactly
as the source iterates over the keys of the source object: a null source
value deletes the key; two plain objects merge recursively; any other
source value (arrays included) replaces the target value wholesale. -/
def deepMerge : JVal → JVal → JVal
  | t, .fcons k v rest =>
    let t' :=
      match v with
      | .jnull => objDel t k
      | .jobj sfields =>
        (match objGet t k with
         | some (.jobj tfields) => objSet t k (.jobj (deepMerge tfields sfields))
         | _ => objSet t k (.jobj sfields))
      | _ => objSet t k v
    deepMerge t' rest
  | t, _ => t

/-- A skills row as the update logic sees it: stored JSON already parsed.
The description column is never touched by updateSkill. -/
structure SkillRow where
  description : Option String
  instructions : Option JVal
  skill_data : JVal
  training : JVal

/-- The merge base: parsed stored skill_data defaulted to an empty object
when null, as in the source expression jsonParse(data) or empty. -/
def mergeBase : JVal → JVal
  | .jobj fs => fs
  | _ => .fnil

/-- Array indices as object fields, for the case where the model wrapped
skill_data in an array: Object.keys of a JS array are its indices. -/
def arrFields (i : Nat) : JVal → JVal
  | .acons v rest => .fcons (toString i) v (arrFields (i + 1) rest)
  | _ => .fnil

/-- MemoryTool.updateSkill on a row: destructures instructions and
skill_data out of newData, clears skill_data on the null sentinel, unwraps a
wrapped object, else deep-merges the remaining direct fields; instructions
is replaced only when the key is present, with falsy values stored as null;
the training counter increments when requested. -/
def updateSkill (s : SkillRow) (newData : JVal) (trainingIncrement : Bool) : SkillRow :=
  let newInstructions := objGet newData "instructions"
  let wrappedData := objGet newData "skill_data"
  let directData := objDel (objDel newData "instructions") "skill_data"
  let base := mergeBase s.skill_data
  let skillData :=
    match wrappedData with
    | some .jnull => if directData = .fnil then .fnil else deepMerge base directData
    | some (.jobj ws) => if directData = .fnil then deepMerge base ws else deepMerge base directData
    | some (.jarr xs) =>
      if directData = .fnil then deepMerge base (arrFields 0 xs) else deepMerge base directData
    | _ => deepMerge base directData
  let instructions :=
    match newInstructions with
    | none => s.instructions
    | some v => if jtruthy v then some v else none
  let count :=
    match objGet s.training "count" with
    | some (.jnum n) => if n != 0 then n else 0
    | _ => 0
  let training :=
    if trainingIncrement then objSet s.training "count" (.jnum (count + 1)) else s.training
  { description := s.description, instructions := instructions,
    skill_data := .jobj skillData, training := training }

end MemoryTool

lemma objGet_objSet (fs : JVal) (k : String) (v : JVal) :
    objGet (objSet fs k v) k = some v := by
  induction fs with
  | fcons k' v' rest _ ihr =>
    by_cases h : k' = k <;> simp [objSet, objGet, h, ihr]
  | _ => simp [objSet, objGet]

lemma objGet_objDel (fs : JVal) (k : String) :
    objGet (objDel fs k) k = none := by
  induction fs with
  | fcons k' v' rest _ ihr =>
    by_cases h : k' = k <;> simp [objDel, objGet, h, ihr]
  | _ => simp [objDel, objGet]

lemma buildArgs_arr (xs : JVal) :
    PatchFileTool.buildArgsFromAction (some (.jarr xs)) = .jarr xs := rfl

lemma buildArgs_isArr (a : Option JVal) :
    ∃ xs, PatchFileTool.buildArgsFromAction a = .jarr xs := by
  unfold PatchFileTool.buildArgsFromAction
  repeat' split <;> try exact ⟨_, rfl⟩

/-- Claim C10: the static buildArgsFromAction transformer of PatchFileTool is
idempotent: applied to the argument value it returned, it yields that value
unchanged, and in particular an array input is returned as-is. This makes the
double application in runPrompt and executeToolCall harmless. -/
theorem C10_buildArgsFromAction_idempotent :
    (∀ a : Option JVal,
      PatchFileTool.buildArgsFromAction (some (PatchFileTool.buildArgsFromAction a)) =
        PatchFileTool.buildArgsFromAction a) ∧
    (∀ xs : JVal, PatchFileTool.buildArgsFromAction (some (.jarr xs)) = .jarr xs) := by
  refine ⟨fun a => ?_, buildArgs_arr⟩
  obtain ⟨xs, h⟩ := buildArgs_isArr a
  rw [h]
  exact buildArgs_arr xs

lemma deepMerge_fnil (t : JVal) : MemoryTool.deepMerge t .fnil = t := rfl

lemma deepMerge_obj_recurse (t tf sf : JVal) (k : String)
    (h : objGet t k = some (.jobj tf)) :
    MemoryTool.deepMerge t (jfields [(k, .jobj sf)]) =
      objSet t k (.jobj (MemoryTool.deepMerge tf sf)) := by
  simp only [jfields, MemoryTool.deepMerge, h]

/-- Claim C6 (amended form): updateSkill applies deep-merge semantics: the
sentinel update setting skill_data to null resets skill_data to the empty
object leaving description and instructions unchanged; nested objects merge
recursively; arrays replace wholesale; a null value deletes the key; and for
a skill whose stored skill_data is empty, merging an object with key a
holding b equal 1 and then one holding c equal 2 yields both bindings under
a, after which deleting b via null leaves only c. -/
theorem C6_updateSkill_deep_merge :
    (∀ s : MemoryTool.SkillRow,
      MemoryTool.updateSkill s (jfields [("skill_data", .jnull)]) false =
        { s with skill_data := .jobj .fnil }) ∧
    (∀ (t tf sf : JVal) (k : String), objGet t k = some (.jobj tf) →
      MemoryTool.deepMerge t (jfields [(k, .jobj sf)]) =
        objSet t k (.jobj (MemoryTool.deepMerge tf sf))) ∧
    (∀ (t xs : JVal) (k : String),
      objGet (MemoryTool.deepMerge t (jfields [(k, .jarr xs)])) k = some (.jarr xs)) ∧
    (∀ (t : JVal) (k : String),
      objGet (MemoryTool.deepMerge t (jfields [(k, .jnull)])) k = none) ∧
    (∀ s : MemoryTool.SkillRow, s.skill_data = .jobj .fnil →
      (MemoryTool.updateSkill (MemoryTool.updateSkill s
          (jfields [("a", .jobj (jfields [("b", .jnum 1)]))]) false)
          (jfields [("a", .jobj (jfields [("c", .jnum 2)]))]) false).skill_data =
        .jobj (jfields [("a", .jobj (jfields [("b", .jnum 1), ("c", .jnum 2)]))]) ∧
      (MemoryTool.updateSkill (MemoryTool.updateSkill (MemoryTool.updateSkill s
          (jfields [("a", .jobj (jfields [("b", .jnum 1)]))]) false)
          (jfields [("a", .jobj (jfields [("c", .jnum 2)]))]) false)
          (jfields [("a", .jobj (jfields [("b", .jnull)]))]) false).skill_data =
        .jobj (jfields [("a", .jobj (jfields [("c", .jnum 2)]))])) := by
  refine ⟨fun s => rfl, deepMerge_obj_recurse, ?_, ?_, ?_⟩
  · intro t xs k
    simp only [jfields, MemoryTool.deepMerge, deepMerge_fnil, objGet_objSet]
  · intro t k
    simp only [jfields, MemoryTool.deepMerge, deepMerge_fnil, objGet_objDel]
  · rintro ⟨d, ins, sd, tr⟩ h
    simp only at h
    subst h
    exact ⟨rfl, rfl⟩

/-- Witness for claim C6: the hypotheses of the amended theorem discharged at
concrete inputs, with the merge results computed by evaluation. -/
theorem C6_witness :
    MemoryTool.deepMerge (jfields [("x", .jobj (jfields [("u", .jnum 5)]))])
        (jfields [("x", .jobj (jfields [("w", .jnum 6)]))]) =
      objSet (jfields [("x", .jobj (jfields [("u", .jnum 5)]))]) "x"
        (.jobj (MemoryTool.deepMerge (jfields [("u", .jnum 5)]) (jfields [("w", .jnum 6)]))) ∧
    (MemoryTool.updateSkill (MemoryTool.updateSkill
        ⟨some "d", none, .jobj .fnil, .fnil⟩
        (jfields [("a", .jobj (jfields [("b", .jnum 1)]))]) false)
        (jfields [("a", .jobj (jfields [("c", .jnum 2)]))]) false).skill_data =
      .jobj (jfields [("a", .jobj (jfields [("b", .jnum 1), ("c", .jnum 2)]))]) :=
  ⟨C6_updateSkill_deep_merge.2.1 _ _ _ "x" rfl,
   (C6_updateSkill_deep_merge.2.2.2.2 ⟨some "d", none, .jobj .fnil, .fnil⟩ rfl).1⟩

/-- Counterexample for claim C6 as stated: for a skill whose existing
skill_data already binds key a to an object with key z, merging an object
with a.b equal 1 and then one with a.c equal 2 yields a result that keeps z,
so it is not the object with only b and c that the claim asserts for any
existing skill. -/
theorem C6_counterexample :
    (MemoryTool.updateSkill (MemoryTool.updateSkill
        ⟨none, none, .jobj (jfields [("a", .jobj (jfields [("z", .jnum 9)]))]), .fnil⟩
        (jfields [("a", .jobj (jfields [("b", .jnum 1)]))]) false)
        (jfields [("a", .jobj (jfields [("c", .jnum 2)]))]) false).skill_data =
      .jobj (jfields [("a", .jobj (jfields [("z", .jnum 9), ("b", .jnum 1), ("c", .jnum 2)]))]) ∧
    (MemoryTool.updateSkill (MemoryTool.updateSkill
        ⟨none, none, .jobj (jfields [("a", .jobj (jfields [("z", .jnum 9)]))]), .fnil⟩
        (jfields [("a", .jobj (jfields [("b", .jnum 1)]))]) false)
        (jfields [("a", .jobj (jfields [("c", .jnum 2)]))]) false).skill_data ≠
      .jobj (jfields [("a", .jobj (jfields [("b", .jnum 1), ("c", .jnum 2)]))]) :=
  ⟨rfl, by decide⟩

namespace MemoryTool

/-- Lowercasing character by character: JS toLowerCase and SQLite LOWER
agree on the ASCII data involved in the search path. -/
def lowerChars (cs : List Char) : List Char := cs.map Char.toLower

/-- REPLACE with a space for every underscore, character by character. -/
def underscoreToSpace (cs : List Char) : List Char :=
  cs.map (fun c => if c = '_' then ' ' else c)

/-- Splitting on whitespace with empty pieces dropped: the source splits on
runs of whitespace and filters falsy pieces, which yields exactly the
maximal nonempty runs of non-whitespace characters. -/
def splitWsAux : List Char → List Char → List (List Char)
  | [], acc => if acc.isEmpty then [] else [acc.reverse]
  | c :: rest, acc =>
    if c.isWhitespace then
      (if acc.isEmpty then splitWsAux rest [] else acc.reverse :: splitWsAux rest [])
    else splitWsAux rest (c :: acc)

/-- The tokens of a search query in buildSearchWhere: lowercase the query,
replace underscores with spaces, split on whitespace. -/
def searchTokens (query : String) : List (List Char) :=
  splitWsAux (underscoreToSpace (lowerChars query.data)) []

/-- The SQL predicate LIKE enclosed in percent signs: the pattern occurs as
a contiguous substring (tokens contain no LIKE metacharacters). -/
def likeContains (hay pat : List Char) : Bool :=
  hay.tails.any (fun t => pat.isPrefixOf t)

/-- The WHERE clause assembled by buildSearchWhere: one OR-group per token
holding one LIKE pattern per column, groups joined by OR; none when the
query has no tokens, in which case searchGlobal reports an error. -/
def buildSearchWhere (query : String) (cols : List String) :
    Option (List (List (String × List Char))) :=
  match searchTokens query with
  | [] => none
  | toks => some (toks.map (fun tok => cols.map (fun col => (col, tok))))

/-- SQL evaluation of one clause LOWER(REPLACE(col)) LIKE pattern against a
row giving the stored text of each column. -/
def evalClause (row : String → String) (c : String × List Char) : Bool :=
  likeContains (underscoreToSpace (lowerChars (row c.1).data)) c.2

/-- Evaluation of the assembled WHERE clause: OR across token groups and OR
across the columns inside each group. -/
def evalWhere (row : String → String) (w : List (List (String × List Char))) : Bool :=
  w.any (fun grp => grp.any (evalClause row))

/-- The columns searchGlobal passes to buildSearchWhere. -/
def searchGlobalCols : List String := ["key", "value", "category", "tags"]

/-- A stored global memory row whose value is the string mega furnace; the
value column holds the JSON-stringified text, hence the surrounding quote
characters. -/
def megaFurnaceRow : String → String :=
  fun c => if c = "value" then "\"mega furnace\"" else ""

end MemoryTool

/-- Claim C7: memory search tokenizes the query by lowercasing, replacing
underscores with spaces and splitting on whitespace, and a record matches
when some token has some searched column whose lowered underscore-replaced
text contains the token as a substring, token clauses joined by OR; in
particular a record with value mega furnace is returned for each of the
queries mega, furnace, mega underscore furnace, and FURNACE mega. -/
theorem C7_tokenized_search :
    (∀ (query : String) (cols : List String) (row : String → String)
        (w : List (List (String × List Char))),
      MemoryTool.buildSearchWhere query cols = some w →
      (MemoryTool.evalWhere row w = true ↔
        ∃ tok ∈ MemoryTool.searchTokens query, ∃ col ∈ cols,
          MemoryTool.likeContains
            (MemoryTool.underscoreToSpace (MemoryTool.lowerChars (row col).data)) tok = true)) ∧
    (MemoryTool.buildSearchWhere "mega" MemoryTool.searchGlobalCols).map
        (MemoryTool.evalWhere MemoryTool.megaFurnaceRow) = some true ∧
    (MemoryTool.buildSearchWhere "furnace" MemoryTool.searchGlobalCols).map
        (MemoryTool.evalWhere MemoryTool.megaFurnaceRow) = some true ∧
    (MemoryTool.buildSearchWhere "mega_furnace" MemoryTool.searchGlobalCols).map
        (MemoryTool.evalWhere MemoryTool.megaFurnaceRow) = some true ∧
    (MemoryTool.buildSearchWhere "FURNACE mega" MemoryTool.searchGlobalCols).map
        (MemoryTool.evalWhere MemoryTool.megaFurnaceRow) = some true := by
  refine ⟨?_, by decide, by decide, by decide, by decide⟩
  intro query cols row w h
  unfold MemoryTool.buildSearchWhere at h
  cases hts : MemoryTool.searchTokens query with
  | nil => rw [hts] at h; exact absurd h (by simp)
  | cons t ts =>
    rw [hts] at h
    have hw : w = (t :: ts).map (fun tok => cols.map (fun col => (col, tok))) :=
      (Option.some.inj h).symm
    subst hw
    simp [MemoryTool.evalWhere, MemoryTool.evalClause, List.any_map, List.any_eq_true,
      Function.comp]
    constructor
    · rintro (h1 | ⟨tok, htok, c, b, ⟨c', hc', rfl, rfl⟩, hp⟩)
      · exact Or.inl h1
      · exact Or.inr ⟨tok, htok, c', hc', hp⟩
    · rintro (h1 | ⟨tok, htok, col, hcol, hp⟩)
      · exact Or.inl h1
      · exact Or.inr ⟨tok, htok, col, tok, ⟨col, hcol, rfl, rfl⟩, hp⟩

/-- Witness for claim C7: the general characterization applied to the query
mega over the searchGlobal columns and the stored mega furnace row. -/
theorem C7_witness :
    MemoryTool.evalWhere MemoryTool.megaFurnaceRow
        [[("key", "mega".data), ("value", "mega".data),
          ("category", "mega".data), ("tags", "mega".data)]] = true ↔
      ∃ tok ∈ MemoryTool.searchTokens "mega", ∃ col ∈ MemoryTool.searchGlobalCols,
        MemoryTool.likeContains
          (MemoryTool.underscoreToSpace
            (MemoryTool.lowerChars (MemoryTool.megaFurnaceRow col).data)) tok = true :=
  C7_tokenized_search.1 "mega" MemoryTool.searchGlobalCols MemoryTool.megaFurnaceRow _ rfl

namespace CronJobsTool

/-- Day of week of a UTC timestamp in milliseconds, zero for Sunday, as the
JS getDay in UTC: the Unix epoch fell on a Thursday, day four. -/
def dayOfWeek (t : Nat) : Nat := (t / 86400000 + 4) % 7

/-- Hour of day of a UTC timestamp in milliseconds. -/
def hourOf (t : Nat) : Nat := t / 3600000 % 24

/-- Minute of hour of a UTC timestamp in milliseconds. -/
def minuteOf (t : Nat) : Nat := t / 60000 % 60

/-- The result of setSeconds(0,0): the start of the minute containing t. -/
def minuteFloor (t : Nat) : Nat := t / 60000 * 60000

/-- A schedule-type cron job row as shouldFire sees it. -/
structure ScheduleJob where
  days : List Nat
  hour : Nat
  minute : Nat
  lastFired : Option Nat

/-- CronJobsTool shouldFire for a schedule job at a tick time: day in days,
hour and minute equal, and lastFired absent or strictly before the start of
the current minute (the source tests lastFired at or after the minute start
and negates). -/
def shouldFire (j : ScheduleJob) (now : Nat) : Bool :=
  let sameMinute :=
    match j.lastFired with
    | some lf => decide (lf ≥ minuteFloor now)
    | none => false
  j.days.contains (dayOfWeek now) && (hourOf now == j.hour) && (minuteOf now == j.minute) &&
    !sameMinute

/-- One scheduler tick on one enabled schedule job: fire when shouldFire
holds, then record the tick time as lastFired. -/
def tick (j : ScheduleJob) (now : Nat) : ScheduleJob × Bool :=
  if shouldFire j now then ({ j with lastFired := some now }, true) else (j, false)

/-- A sequence of ticks on one job, counting how many of them fired. -/
def runTicks (j : ScheduleJob) : List Nat → ScheduleJob × Nat
  | [] => (j, 0)
  | t :: rest =>
    let r := tick j t
    let r' := runTicks r.1 rest
    (r'.1, (if r.2 then 1 else 0) + r'.2)

/-- The firing condition in the words of the specification: last_fired is
null or not within the current minute, where within the current minute means
at or after the minute start and before the next minute start. -/
def claimFire (j : ScheduleJob) (now : Nat) : Bool :=
  j.days.contains (dayOfWeek now) && (hourOf now == j.hour) && (minuteOf now == j.minute) &&
    (match j.lastFired with
     | some lf => !(decide (minuteFloor now ≤ lf) && decide (lf < minuteFloor now + 60000))
     | none => true)

end CronJobsTool

lemma minuteFloor_le (t : Nat) : CronJobsTool.minuteFloor t ≤ t :=
  Nat.div_mul_le_self t 60000

lemma minuteFloor_fields (t : Nat) :
    CronJobsTool.dayOfWeek (CronJobsTool.minuteFloor t) = CronJobsTool.dayOfWeek t ∧
      CronJobsTool.hourOf (CronJobsTool.minuteFloor t) = CronJobsTool.hourOf t ∧
      CronJobsTool.minuteOf (CronJobsTool.minuteFloor t) = CronJobsTool.minuteOf t ∧
      CronJobsTool.minuteFloor (CronJobsTool.minuteFloor t) = CronJobsTool.minuteFloor t := by
  have h0 : CronJobsTool.minuteFloor t / 60000 = t / 60000 := by
    unfold CronJobsTool.minuteFloor
    omega
  have eday : ∀ x : Nat, x / 86400000 = x / 60000 / 1440 := fun x => by
    rw [Nat.div_div_eq_div_mul]
  have ehour : ∀ x : Nat, x / 3600000 = x / 60000 / 60 := fun x => by
    rw [Nat.div_div_eq_div_mul]
  refine ⟨?_, ?_, ?_, ?_⟩
  · unfold CronJobsTool.dayOfWeek
    rw [eday, eday, h0]
  · unfold CronJobsTool.hourOf
    rw [ehour, ehour, h0]
  · unfold CronJobsTool.minuteOf
    rw [h0]
  · unfold CronJobsTool.minuteFloor
    omega

lemma runTicks_no_fire (m : Nat) (ticks : List Nat)
    (hm : ∀ t ∈ ticks, CronJobsTool.minuteFloor t = m)
    (j : CronJobsTool.ScheduleJob) (lf : Nat) (hlf : j.lastFired = some lf) (hge : m ≤ lf) :
    CronJobsTool.runTicks j ticks = (j, 0) := by
  induction ticks with
  | nil => rfl
  | cons t rest ih =>
    have hmt := hm t (List.mem_cons_self t rest)
    have hnf : CronJobsTool.shouldFire j t = false := by
      unfold CronJobsTool.shouldFire
      rw [hlf]
      simp only [hmt]
      simp [hge]
    simp [CronJobsTool.runTicks, CronJobsTool.tick, hnf,
      ih (fun x hx => hm x (List.mem_cons_of_mem t hx))]

/-- Counterexample for claim C8 as stated: at a Monday nine hundred hours
UTC tick, a job whose last_fired lies two minutes in the future is not
within the current minute, so the predicate in the words of the claim says
fire, yet shouldFire is false: the source treats any last_fired at or after
the minute start, future values included, as already fired. -/
theorem C8_counterexample :
    CronJobsTool.claimFire ⟨[1], 9, 0, some 378120000⟩ 378000000 = true ∧
    CronJobsTool.shouldFire ⟨[1], 9, 0, some 378120000⟩ 378000000 = false ∧
    CronJobsTool.dayOfWeek 378000000 = 1 ∧ CronJobsTool.hourOf 378000000 = 9 ∧
    CronJobsTool.minuteOf 378000000 = 0 := by
  refine ⟨rfl, rfl, rfl, rfl, rfl⟩

/-- Claim C8 (amended form): a scheduler tick fires an enabled schedule job
exactly when the tick day of week is in days, its hour and minute match, and
last_fired is null or strictly before the start of the current minute, with
last_fired updated after firing; consequently a job for Monday at nine zero
whose last_fired is absent or before the minute start fires exactly once
over any nonempty collection of ticks falling inside one Monday nine hundred
hours UTC minute. -/
theorem C8_schedule_fires_once :
    (∀ (j : CronJobsTool.ScheduleJob) (now : Nat),
      CronJobsTool.shouldFire j now = true ↔
        (CronJobsTool.dayOfWeek now ∈ j.days ∧ CronJobsTool.hourOf now = j.hour ∧
          CronJobsTool.minuteOf now = j.minute ∧
          ∀ lf ∈ j.lastFired, lf < CronJobsTool.minuteFloor now)) ∧
    (∀ (lf0 : Option Nat) (m : Nat) (ticks : List Nat),
      CronJobsTool.dayOfWeek m = 1 → CronJobsTool.hourOf m = 9 →
      CronJobsTool.minuteOf m = 0 →
      (∀ lf ∈ lf0, lf < m) →
      ticks ≠ [] → (∀ t ∈ ticks, CronJobsTool.minuteFloor t = m) →
      (CronJobsTool.runTicks ⟨[1], 9, 0, lf0⟩ ticks).2 = 1) := by
  constructor
  · intro j now
    unfold CronJobsTool.shouldFire
    cases hlf : j.lastFired with
    | none =>
      simp only [Bool.and_eq_true, Bool.not_eq_true', beq_iff_eq]
      simp only [List.contains, List.elem_eq_mem, decide_eq_true_eq, Option.mem_def]
      constructor
      · rintro ⟨⟨⟨h1, h2⟩, h3⟩, -⟩
        exact ⟨h1, h2, h3, by intro lf h; cases h⟩
      · rintro ⟨h1, h2, h3, -⟩
        exact ⟨⟨⟨h1, h2⟩, h3⟩, trivial⟩
    | some lf =>
      simp only [Bool.and_eq_true, Bool.not_eq_true', beq_iff_eq]
      simp only [List.contains, List.elem_eq_mem, decide_eq_true_eq, decide_eq_false_iff_not,
        not_le, Option.mem_def, Option.some.injEq]
      constructor
      · rintro ⟨⟨⟨h1, h2⟩, h3⟩, h4⟩
        exact ⟨h1, h2, h3, fun x hx => hx ▸ h4⟩
      · rintro ⟨h1, h2, h3, h4⟩
        exact ⟨⟨⟨h1, h2⟩, h3⟩, h4 lf rfl⟩
  · intro lf0 m ticks hday hhour hmin hlf hne hticks
    cases ticks with
    | nil => exact absurd rfl hne
    | cons t1 rest =>
      have hmt : CronJobsTool.minuteFloor t1 = m := hticks t1 (List.mem_cons_self t1 rest)
      obtain ⟨hd, hh, hm, _⟩ := minuteFloor_fields t1
      rw [hmt] at hd hh hm
      have hfire : CronJobsTool.shouldFire ⟨[1], 9, 0, lf0⟩ t1 = true := by
        unfold CronJobsTool.shouldFire
        cases hlf0 : lf0 with
        | none => simp [← hd, hday, ← hh, hhour, ← hm, hmin]
        | some lf =>
          have := hlf lf (by rw [hlf0]; rfl)
          simp [← hd, hday, ← hh, hhour, ← hm, hmin]
          omega
      simp only [CronJobsTool.runTicks, CronJobsTool.tick, hfire, if_true]
      rw [runTicks_no_fire m rest (fun x hx => hticks x (List.mem_cons_of_mem t1 hx))
        { days := [1], hour := 9, minute := 0, lastFired := some t1 } t1 rfl
        (hmt ▸ minuteFloor_le t1)]
      rfl

/-- Witness for claim C8: the exactly-once consequence applied to a fresh
Monday nine hundred hours job across three ticks with jitter inside the
minute starting at epoch milliseconds 378000000, and the firing
characterization applied at that minute start. -/
theorem C8_witness :
    (CronJobsTool.runTicks ⟨[1], 9, 0, none⟩ [378000000, 378014000, 378059999]).2 = 1 ∧
    (CronJobsTool.shouldFire ⟨[1], 9, 0, none⟩ 378000000 = true ↔
      (CronJobsTool.dayOfWeek 378000000 ∈ [1] ∧ CronJobsTool.hourOf 378000000 = 9 ∧
        CronJobsTool.minuteOf 378000000 = 0 ∧
        ∀ lf ∈ (none : Option Nat), lf < CronJobsTool.minuteFloor 378000000)) :=
  ⟨C8_schedule_fires_once.2 none 378000000 [378000000, 378014000, 378059999]
      (by decide) (by decide) (by decide)
      (by intro lf h; cases h) (by decide)
      (by intro t ht
          fin_cases ht <;> rfl),
    C8_schedule_fires_once.1 ⟨[1], 9, 0, none⟩ 378000000⟩

namespace ToolRegistry

/-- The registered tool names: the constructor names of the instantiated
tool classes, which become the keys of the registry object. -/
def registryNames : List String :=
  ["BashTool", "FileReadTool", "FileWriteTool", "PatchFileTool", "DiscordTool",
   "HttpRequestTool", "CronJobsTool", "MemoryTool", "FileDownloadTool", "WeatherTool",
   "TrelloTool", "WebSearchTool", "PdfTool"]

/-- The lookup performed by executeToolCall: a plain JS property access of
the tool name on the registry object, hence an exact character-for-character
key match; an unknown key yields undefined and executeToolCall returns null
without running any tool. -/
def lookupTool (name : String) : Option String :=
  registryNames.find? (fun n => n == name)

/-- ASCII lowercasing of a name, used to exhibit names differing only in
letter case. -/
def lowerName (s : String) : List Char := s.data.map Char.toLower

end ToolRegistry

/-- Counterexample for claim C9 as stated: the action tool name
filewritetool differs from the registered FileWriteTool only in letter
case, yet the registry lookup finds nothing for it, so the dispatcher does
not invoke the tool: dispatch is case-sensitive. -/
theorem C9_counterexample :
    ToolRegistry.lookupTool "FileWriteTool" = some "FileWriteTool" ∧
    ToolRegistry.lookupTool "filewritetool" = none ∧
    ToolRegistry.lowerName "filewritetool" = ToolRegistry.lowerName "FileWriteTool" := by
  refine ⟨rfl, rfl, rfl⟩

/-- Claim C9 (amended form): tool dispatch through the registry is
case-sensitive: a lookup succeeds exactly for the registered names, returns
that exact name, and a tool-call name that differs from a registered name
only in letter case, such as all-lowercase filewritetool, is not
dispatched. -/
theorem C9_dispatch_case_sensitive :
    (∀ name t, ToolRegistry.lookupTool name = some t → t = name) ∧
    (∀ name, name ∈ ToolRegistry.registryNames → ToolRegistry.lookupTool name = some name) ∧
    ToolRegistry.lookupTool "filewritetool" = none := by
  refine ⟨?_, by decide, rfl⟩
  intro name t h
  have := List.find?_some h
  exact eq_of_beq this

/-- Witness for claim C9: the exact-match lookup applied at the registered
name FileWriteTool and the roundtrip of the amended characterization. -/
theorem C9_witness :
    ToolRegistry.lookupTool "FileWriteTool" = some "FileWriteTool" ∧
    ("FileWriteTool" : String) = "FileWriteTool" :=
  ⟨C9_dispatch_case_sensitive.2.1 "FileWriteTool" (by decide),
   C9_dispatch_case_sensitive.1 "FileWriteTool" "FileWriteTool"
     (C9_dispatch_case_sensitive.2.1 "FileWriteTool" (by decide))⟩

namespace Orchestrator

/-- The result object a tool call produced, as the forcing block inspects
it: an optional success flag and an optional error value; none models an
absent or null field, and a truthy error is a nonempty message. -/
structure ToolResult where
  success : Option Bool
  error : Option String
  deriving DecidableEq

/-- One entry of tool_results. Entries pushed by tool execution carry the
tool name, the arguments and a result; the synthetic retry entry pushed
after a non-canonical parse carries only the tool name and a top-level
error text, modelled by the err field. -/
structure ToolEntry where
  tool : String
  arguments : JVal
  result : Option ToolResult
  err : Option String
  deriving DecidableEq

/-- The failure test of the forcing block: result success is exactly false,
or the result error is truthy. An entry without a result object, such as
the synthetic retry entry, never counts as failed. -/
def entryFailed (e : ToolEntry) : Bool :=
  match e.result with
  | some r =>
    r.success == some false || (match r.error with | some s => s ≠ "" | none => false)
  | none => false

/-- An action of a parsed canonical envelope. An empty tool string models a
missing or falsy tool field. -/
structure PAction where
  type : String
  tool : String
  arguments : JVal
  deriving DecidableEq

/-- A parsed canonical envelope: actions none models an absent or non-array
actions field, an empty final_answer an absent one, and continueField holds
exactly when the continue field is the boolean true, the only value the
loop compares against. -/
structure ParsedResponse where
  actions : Option (List PAction)
  final_answer : String
  continueField : Bool
  deriving DecidableEq

/-- The outcome of one LLM turn after parsing, as scripted by the
environment: no extractable JSON, JSON lacking every canonical field, or a
canonical envelope together with the results its executed tool calls will
return, consumed in execution order with missing entries defaulting to a
result with no fields. -/
inductive LlmTurn where
  | noJson
  | badFields
  | envelope (p : ParsedResponse) (returns : List ToolResult)
  deriving DecidableEq

/-- The user prompt of an LLM call: the initial prompt text of the run, or
the JSON-stringified state object holding the original prompt, the
accumulated tool results and the last response, which is null after a
non-canonical parse. Stringification is modelled by the constructor. -/
inductive PromptVal where
  | initial (text : String)
  | next (originalPrompt : String) (toolResults : List ToolEntry)
      (lastResponse : Option ParsedResponse)
  deriving DecidableEq

/-- Events of a run in order: every LLM call with the user prompt it was
given, every executed tool call, and the detection of a pending abort. -/
inductive Event where
  | llm (prompt : PromptVal)
  | tool (name : String)
  | abortDetected
  deriving DecidableEq

/-- A pending continuation saved for the channel on hitting the loop limit. -/
structure Continuation where
  toolResults : List ToolEntry
  resumePrompt : PromptVal
  originalPrompt : String
  loopCount : Nat
  deriving DecidableEq

/-- The outcome delivered to the caller of runPrompt. -/
inductive Outcome where
  | invalidJson (loop_count : Nat)
  | aborted (tool_results : List ToolEntry) (last_response : Option ParsedResponse)
      (loop_count : Nat)
  | maxIterations (tool_results : List ToolEntry) (last_response : Option ParsedResponse)
      (final_answer : String) (loop_count : Nat)
  | fallback (tool_results : List ToolEntry) (last_response : Option ParsedResponse)
      (loop_count : Nat)
  | completed (tool_results : List ToolEntry) (last_response : Option ParsedResponse)
      (loop_count : Nat)
  deriving DecidableEq

/-- The mutable loop state of runPrompt: the accumulated tool results, the
last parsed response, the user prompt of the next LLM call, the loop flag,
the iteration counter, and the number of abort checks performed so far,
which indexes the abort oracle. -/
structure LoopSt where
  toolResults : List ToolEntry
  lastResponse : Option ParsedResponse
  userPrompt : PromptVal
  continueLoop : Bool
  loopCount : Nat
  checks : Nat
  deriving DecidableEq

/-- Whether the parsed actions contain an action typed tool_call. -/
def hasToolCalls (p : ParsedResponse) : Bool :=
  match p.actions with
  | some acts => acts.any (fun a => a.type == "tool_call")
  | none => false

/-- Whether final_answer is truthy with nonblank trimmed content, which
holds exactly when some character is not whitespace. -/
def hasFinalAnswer (p : ParsedResponse) : Bool :=
  p.final_answer.data.any (fun c => !c.isWhitespace)

/-- The count the forcing block computes: every action typed tool_call,
whether or not it carried a tool name. -/
def iterationToolCount (p : ParsedResponse) : Nat :=
  match p.actions with
  | some acts => (acts.filter (fun a => a.type == "tool_call")).length
  | none => 0

/-- The synthetic system entry pushed into tool_results when the parse
lacked every canonical field, instructing the model to retry. -/
def systemRetryEntry : ToolEntry :=
  { tool := "_system", arguments := .jnull, result := none,
    err := some "Your previous response was not valid JSON in the required format. You MUST respond with a single JSON object containing: reasoning, actions, final_answer, continue. No free text before or after the JSON." }

/-- The result of executing the actions of one turn: either an abort was
detected before some action, or all actions were processed. -/
inductive ExecRes where
  | abortedAt (checks : Nat) (toolResults : List ToolEntry) (events : List Event)
  | done (checks : Nat) (toolResults : List ToolEntry) (events : List Event)
  deriving DecidableEq

/-- Execution of the actions of one envelope turn, as the source action
loop: an abort check precedes every action; only actions typed tool_call
with a truthy tool name execute, consuming the next scripted return and
pushing an entry; every other action is skipped. -/
def execActions (abort : Nat → Bool) :
    List PAction → List ToolResult → Nat → List ToolEntry → List Event → ExecRes
  | [], _, checks, acc, evs => .done checks acc evs
  | a :: rest, rets, checks, acc, evs =>
    if abort checks then .abortedAt checks acc (evs ++ [.abortDetected])
    else if a.type == "tool_call" && a.tool != "" then
      execActions abort rest rets.tail (checks + 1)
        (acc ++ [{ tool := a.tool, arguments := a.arguments,
                   result := some (rets.headD ⟨none, none⟩), err := none }])
        (evs ++ [.tool a.tool])
    else
      execActions abort rest rets (checks + 1) acc evs

/-- The entries the action loop pushes when no abort intervenes. -/
def execEntries : List PAction → List ToolResult → List ToolEntry
  | [], _ => []
  | a :: rest, rets =>
    if a.type == "tool_call" && a.tool != "" then
      { tool := a.tool, arguments := a.arguments,
        result := some (rets.headD ⟨none, none⟩), err := none } :: execEntries rest rets.tail
    else execEntries rest rets

/-- The events the action loop emits when no abort intervenes. -/
def execEvents : List PAction → List Event
  | [] => []
  | a :: rest =>
    if a.type == "tool_call" && a.tool != "" then .tool a.tool :: execEvents rest
    else execEvents rest

/-- The fixed inputs of a run: the original prompt, the configured loop
limit, the LLM oracle giving the parsed outcome of the call made in each
iteration, and the abort oracle read at each successive abort check, which
models the per-channel abort flag after the initial clearAbort. -/
structure Params where
  prompt : String
  loopLimit : Nat
  llm : Nat → LlmTurn
  abort : Nat → Bool

/-- The loop-limit continuation question, with the limit interpolated. -/
def contQuestion (loopLimit : Nat) : String :=
  "I\x27ve hit my step limit (" ++ toString loopLimit ++
    " steps) and there\x27s still work to do. Would you like me to continue?"

/-- The code after the while loop: an empty or blank final answer after at
least one parsed response goes through the fallback summarization path,
anything else completes normally. -/
def finalize (st : LoopSt) (evs : List Event) :
    Outcome × Option Continuation × List Event :=
  match st.lastResponse with
  | some p =>
    if hasFinalAnswer p then (.completed st.toolResults st.lastResponse st.loopCount, none, evs)
    else (.fallback st.toolResults st.lastResponse st.loopCount, none, evs)
  | none => (.completed st.toolResults st.lastResponse st.loopCount, none, evs)

/-- The base continue decision of an iteration, from the source line that
sets continueLoop: the continue field is exactly true, or tool calls are
present with no final answer yet. -/
def baseContinue (p : ParsedResponse) : Bool :=
  p.continueField || (hasToolCalls p && !hasFinalAnswer p)

/-- The tail of an envelope iteration after action execution, on the state
whose toolResults and checks the execution updated: the failure forcing
over the last iterationToolCount entries, the preparation of the next
prompt, and the loop-limit branch, which saves the pending continuation and
emits the continuation question. Returns either the terminal outcome with
the saved continuation, or the state for the next iteration. -/
def afterExec (P : Params) (p : ParsedResponse) (st5 : LoopSt) :
    (Outcome × Option Continuation) ⊕ LoopSt :=
  let itc := iterationToolCount p
  let st6 : LoopSt :=
    if 0 < itc ∧ st5.continueLoop = false ∧
        (st5.toolResults.drop (st5.toolResults.length - itc)).any entryFailed = true then
      { st5 with continueLoop := true }
    else st5
  let st7 : LoopSt :=
    if st6.continueLoop = true ∧ st6.loopCount < P.loopLimit then
      { st6 with userPrompt := .next P.prompt st6.toolResults (some p) }
    else st6
  if P.loopLimit ≤ st7.loopCount ∧ st7.continueLoop = true then
    .inl (.maxIterations st7.toolResults st7.lastResponse
            (contQuestion P.loopLimit) st7.loopCount,
          some { toolResults := st7.toolResults,
                 resumePrompt := .next P.prompt st7.toolResults (some p),
                 originalPrompt := P.prompt, loopCount := st7.loopCount })
  else .inr st7

/-- The while loop of runPrompt, one recursive call per iteration. The fuel
only bounds the recursion depth: whenever fuel plus loopCount is at least
the loop limit, the fuel never runs out before the while condition fails,
because each iteration increments loopCount; runPrompt passes loopLimit as
fuel and starts loopCount at zero. Every step follows the source order:
while condition, abort check at loop top, LLM call, abort check after the
LLM, parse outcome (terminate on no JSON; push the synthetic retry entry
and loop on missing canonical fields), the continue decision from the
continue field, tool calls and final answer, action execution with per-tool
abort checks, and the afterExec tail. -/
def runLoop (P : Params) : Nat → LoopSt → List Event →
    Outcome × Option Continuation × List Event
  | 0, st, evs => finalize st evs
  | fuel + 1, st, evs =>
    if st.continueLoop = true ∧ st.loopCount < P.loopLimit then
      let st1 : LoopSt := { st with loopCount := st.loopCount + 1 }
      if P.abort st1.checks then
        (.aborted st1.toolResults st1.lastResponse st1.loopCount, none,
         evs ++ [.abortDetected])
      else
        let st2 : LoopSt := { st1 with checks := st1.checks + 1 }
        let evs1 := evs ++ [.llm st2.userPrompt]
        if P.abort st2.checks then
          (.aborted st2.toolResults st2.lastResponse st2.loopCount, none,
           evs1 ++ [.abortDetected])
        else
          let st3 : LoopSt := { st2 with checks := st2.checks + 1 }
          match P.llm st3.loopCount with
          | .noJson => (.invalidJson st3.loopCount, none, evs1)
          | .badFields =>
            runLoop P fuel
              { st3 with
                toolResults := st3.toolResults ++ [systemRetryEntry],
                userPrompt := .next P.prompt (st3.toolResults ++ [systemRetryEntry]) none }
              evs1
          | .envelope p rets =>
            let st4 : LoopSt :=
              { st3 with
                lastResponse := some p,
                continueLoop := baseContinue p }
            match execActions P.abort (p.actions.getD []) rets st4.checks st4.toolResults evs1 with
            | .abortedAt _ acc evs2 =>
              (.aborted acc st4.lastResponse st4.loopCount, none, evs2)
            | .done checks acc evs2 =>
              match afterExec P p { st4 with checks := checks, toolResults := acc } with
              | .inl (out, pend) => (out, pend, evs2)
              | .inr st7 => runLoop P fuel st7 evs2
    else finalize st evs

/-- Trimming of a character list at both ends, as the JS trim. -/
def trimList (cs : List Char) : List Char :=
  ((cs.dropWhile Char.isWhitespace).reverse.dropWhile Char.isWhitespace).reverse

/-- Drops a case-insensitive marker prefix: the remainder when lowering the
head characters yields the marker, none otherwise. -/
def dropPrefixCI : List Char → List Char → Option (List Char)
  | cs, [] => some cs
  | [], _ :: _ => none
  | c :: cs, m :: ms => if c.toLower = m then dropPrefixCI cs ms else none

/-- The remainder after the first case-insensitive occurrence of the
marker, scanning left to right. -/
def findMarkerCI : List Char → List Char → Option (List Char)
  | cs, marker =>
    match dropPrefixCI cs marker with
    | some rest => some rest
    | none =>
      match cs with
      | [] => none
      | _ :: rest => findMarkerCI rest marker

/-- The current request extracted from a Discord-wrapped prompt, as the
source regex: after the first case-insensitive occurrence of the marker
current request colon, skip whitespace, newlines included, and capture up
to the next newline; when nothing non-blank follows, or no marker occurs,
fall back to the whole text. The result is trimmed as the source does. -/
def currentRequestOf (text : String) : List Char :=
  match findMarkerCI text.data "current request:".data with
  | some rest =>
    match rest.dropWhile Char.isWhitespace with
    | [] => trimList text.data
    | rest' => trimList (rest'.takeWhile (fun c => c != '\n'))
  | none => trimList text.data

/-- The affirmative tokens of isAffirmativeResponse, in source order. -/
def affirmatives : List (List Char) :=
  ["yes", "yeah", "yep", "yup", "sure", "ok", "okay",
   "continue", "go ahead", "proceed", "go on", "keep going",
   "yes please", "please continue", "do it", "go for it",
   "absolutely", "definitely", "of course", "certainly"].map String.data

/-- isAffirmativeResponse: extract the current request, lowercase it, strip
one trailing run of closing punctuation, and accept a string that equals an
affirmative token or starts with one followed by a space. -/
def isAffirmativeResponse (text : String) : Bool :=
  let s := ((currentRequestOf text).map Char.toLower).reverse.dropWhile
    (fun c => c == '!' || c == '.' || c == ',' || c == '?') |>.reverse
  affirmatives.any (fun a => s == a || (a ++ [' ']).isPrefixOf s)

/-- The loop state runPrompt starts from, after consulting the pending
continuation of the channel: an affirmative prompt restores the saved tool
results and resume prompt, anything else starts fresh. -/
def initState (pending : Option Continuation) (P : Params) : LoopSt :=
  let st0 : LoopSt :=
    { toolResults := [], lastResponse := none, userPrompt := .initial P.prompt,
      continueLoop := true, loopCount := 0, checks := 0 }
  match pending with
  | some c =>
    if isAffirmativeResponse P.prompt then
      { st0 with toolResults := c.toolResults, userPrompt := c.resumePrompt }
    else st0
  | none => st0

/-- runPrompt from the point where the pending continuation of the channel
is consulted: the consulted entry is removed in both cases, so the returned
pending entry is only the one saved by this run on hitting the loop limit,
if any; the loop starts with the fuel equal to the loop limit, which the
iteration counter makes sufficient. -/
def runPrompt (pending : Option Continuation) (P : Params) :
    Outcome × Option Continuation × List Event :=
  runLoop P P.loopLimit (initState pending P) []

/-- The number of LLM calls recorded in an event list. -/
def llmCount (evs : List Event) : Nat :=
  evs.countP (fun e => match e with | .llm _ => true | _ => false)

end Orchestrator

namespace Orchestrator

lemma execActions_no_abort (abort : Nat → Bool) (habort : ∀ i, abort i = false) :
    ∀ (acts : List PAction) (rets : List ToolResult) (checks : Nat)
      (acc : List ToolEntry) (evs : List Event),
      ∃ ch, execActions abort acts rets checks acc evs =
        .done ch (acc ++ execEntries acts rets) (evs ++ execEvents acts) := by
  intro acts
  induction acts with
  | nil => intro rets checks acc evs; exact ⟨checks, by simp [execActions, execEntries, execEvents]⟩
  | cons a rest ih =>
    intro rets checks acc evs
    by_cases hx : (a.type == "tool_call" && a.tool != "") = true
    · obtain ⟨ch, hch⟩ := ih rets.tail (checks + 1)
        (acc ++ [{ tool := a.tool, arguments := a.arguments,
                   result := some (rets.headD ⟨none, none⟩), err := none }])
        (evs ++ [.tool a.tool])
      refine ⟨ch, ?_⟩
      have hstep : execActions abort (a :: rest) rets checks acc evs
          = execActions abort rest rets.tail (checks + 1)
            (acc ++ [{ tool := a.tool, arguments := a.arguments,
                       result := some (rets.headD ⟨none, none⟩), err := none }])
            (evs ++ [.tool a.tool]) := by
        simp [execActions, habort, hx]
      rw [hstep, hch]
      simp [execEntries, execEvents, hx, List.append_assoc]
    · obtain ⟨ch, hch⟩ := ih rets (checks + 1) acc evs
      refine ⟨ch, ?_⟩
      have hstep : execActions abort (a :: rest) rets checks acc evs
          = execActions abort rest rets (checks + 1) acc evs := by
        simp [execActions, habort, hx]
      rw [hstep, hch]
      simp [execEntries, execEvents, hx]

/-- An event list extension that contains no abort detection. -/
def cleanExt (evs evs' : List Event) : Prop :=
  ∃ tail, evs' = evs ++ tail ∧ Event.abortDetected ∉ tail

lemma cleanExt_refl (evs : List Event) : cleanExt evs evs := ⟨[], by simp⟩

lemma cleanExt_trans {e1 e2 e3 : List Event} (h1 : cleanExt e1 e2) (h2 : cleanExt e2 e3) :
    cleanExt e1 e3 := by
  obtain ⟨t1, rfl, h1'⟩ := h1
  obtain ⟨t2, rfl, h2'⟩ := h2
  exact ⟨t1 ++ t2, by simp, by simp [h1', h2']⟩

lemma cleanExt_tool (evs : List Event) (n : String) :
    cleanExt evs (evs ++ [.tool n]) := ⟨[.tool n], rfl, by simp⟩

lemma cleanExt_llm (evs : List Event) (u : PromptVal) :
    cleanExt evs (evs ++ [.llm u]) := ⟨[.llm u], rfl, by simp⟩

lemma execActions_events (abort : Nat → Bool) :
    ∀ (acts : List PAction) (rets : List ToolResult) (checks : Nat)
      (acc : List ToolEntry) (evs : List Event),
      (∀ ch tr evs', execActions abort acts rets checks acc evs = .done ch tr evs' →
        cleanExt evs evs') ∧
      (∀ ch tr evs', execActions abort acts rets checks acc evs = .abortedAt ch tr evs' →
        ∃ mid, evs' = evs ++ mid ++ [.abortDetected] ∧ Event.abortDetected ∉ mid) := by
  intro acts
  induction acts with
  | nil =>
    intro rets checks acc evs
    constructor
    · intro ch tr evs' h
      simp only [execActions] at h
      cases h
      exact cleanExt_refl evs
    · intro ch tr evs' h
      simp only [execActions] at h
      exact ExecRes.noConfusion h
  | cons a rest ih =>
    intro rets checks acc evs
    constructor
    · intro ch tr evs' h
      simp only [execActions] at h
      by_cases hab : abort checks
      · simp [hab] at h
      · simp only [hab, if_false, Bool.false_eq_true] at h
        by_cases hx : (a.type == "tool_call" && a.tool != "") = true
        · simp only [hx, if_true] at h
          exact cleanExt_trans (cleanExt_tool evs a.tool)
            ((ih _ _ _ _).1 ch tr evs' h)
        · simp only [hx, if_false, Bool.false_eq_true] at h
          exact (ih _ _ _ _).1 ch tr evs' h
    · intro ch tr evs' h
      simp only [execActions] at h
      by_cases hab : abort checks
      · simp only [hab, if_true] at h
        cases h
        exact ⟨[], by simp, by simp⟩
      · simp only [hab, if_false, Bool.false_eq_true] at h
        by_cases hx : (a.type == "tool_call" && a.tool != "") = true
        · simp only [hx, if_true] at h
          obtain ⟨mid, hm, hnm⟩ := (ih _ _ _ _).2 ch tr evs' h
          exact ⟨.tool a.tool :: mid, by simp [hm], by simp [hnm]⟩
        · simp only [hx, if_false, Bool.false_eq_true] at h
          exact (ih _ _ _ _).2 ch tr evs' h

end Orchestrator

namespace Orchestrator

/-- The continue flag an envelope iteration ends with: the base decision
set before execution, or tool_call actions present together with a failed
result in the inspected window of the accumulated results. -/
def forcedContinue (p : ParsedResponse) (st5 : LoopSt) : Bool :=
  st5.continueLoop ||
    (decide (0 < iterationToolCount p) &&
      (st5.toolResults.drop (st5.toolResults.length - iterationToolCount p)).any entryFailed)

lemma forcedContinue_false (p : ParsedResponse) (st5 : LoopSt)
    (h : forcedContinue p st5 = false) :
    st5.continueLoop = false ∧
      ¬(0 < iterationToolCount p ∧ st5.continueLoop = false ∧
        (st5.toolResults.drop (st5.toolResults.length - iterationToolCount p)).any entryFailed
          = true) := by
  simp only [forcedContinue, Bool.or_eq_false_iff, Bool.and_eq_false_iff,
    decide_eq_false_iff_not] at h
  refine ⟨h.1, ?_⟩
  rintro ⟨hi, -, hany⟩
  rcases h.2 with h' | h'
  · exact h' hi
  · rw [hany] at h'; cases h'

lemma forcedContinue_true_of_base (p : ParsedResponse) (st5 : LoopSt)
    (h : st5.continueLoop = true) : forcedContinue p st5 = true := by
  simp [forcedContinue, h]

lemma afterExec_stop (P : Params) (p : ParsedResponse) (st5 : LoopSt)
    (h : forcedContinue p st5 = false) : afterExec P p st5 = .inr st5 := by
  obtain ⟨h1, h2⟩ := forcedContinue_false p st5 h
  unfold afterExec
  dsimp only
  split_ifs <;> simp_all

lemma afterExec_go (P : Params) (p : ParsedResponse) (st5 : LoopSt)
    (h : forcedContinue p st5 = true) (hlt : st5.loopCount < P.loopLimit) :
    afterExec P p st5 =
      .inr { st5 with
             continueLoop := true,
             userPrompt := .next P.prompt st5.toolResults (some p) } := by
  have hnle : ¬ P.loopLimit ≤ st5.loopCount := by omega
  unfold afterExec
  dsimp only
  cases hc : st5.continueLoop with
  | true => split_ifs <;> simp_all
  | false =>
    have hforce : (0 < iterationToolCount p ∧ st5.continueLoop = false ∧
        (st5.toolResults.drop (st5.toolResults.length - iterationToolCount p)).any entryFailed
          = true) := by
      simp only [forcedContinue, hc, Bool.false_or, Bool.and_eq_true, decide_eq_true_eq] at h
      exact ⟨h.1, hc, h.2⟩
    split_ifs <;> simp_all

lemma afterExec_max (P : Params) (p : ParsedResponse) (st5 : LoopSt)
    (h : forcedContinue p st5 = true) (hge : P.loopLimit ≤ st5.loopCount) :
    afterExec P p st5 =
      .inl (.maxIterations st5.toolResults st5.lastResponse
              (contQuestion P.loopLimit) st5.loopCount,
            some { toolResults := st5.toolResults,
                   resumePrompt := .next P.prompt st5.toolResults (some p),
                   originalPrompt := P.prompt, loopCount := st5.loopCount }) := by
  have hnlt : ¬ st5.loopCount < P.loopLimit := by omega
  unfold afterExec
  dsimp only
  cases hc : st5.continueLoop with
  | true => split_ifs <;> simp_all
  | false =>
    have hforce : (0 < iterationToolCount p ∧ st5.continueLoop = false ∧
        (st5.toolResults.drop (st5.toolResults.length - iterationToolCount p)).any entryFailed
          = true) := by
      simp only [forcedContinue, hc, Bool.false_or, Bool.and_eq_true, decide_eq_true_eq] at h
      exact ⟨h.1, hc, h.2⟩
    split_ifs <;> simp_all

lemma runLoop_stop (P : Params) (fuel : Nat) (st : LoopSt) (evs : List Event)
    (h : ¬(st.continueLoop = true ∧ st.loopCount < P.loopLimit)) :
    runLoop P (fuel + 1) st evs = finalize st evs := by
  simp [runLoop, h]

lemma runLoop_abort_top (P : Params) (fuel : Nat) (st : LoopSt) (evs : List Event)
    (h1 : st.continueLoop = true) (h2 : st.loopCount < P.loopLimit)
    (ha : P.abort st.checks = true) :
    runLoop P (fuel + 1) st evs =
      (.aborted st.toolResults st.lastResponse (st.loopCount + 1), none,
       evs ++ [.abortDetected]) := by
  simp [runLoop, h1, h2, ha]

lemma runLoop_abort_postLlm (P : Params) (fuel : Nat) (st : LoopSt) (evs : List Event)
    (h1 : st.continueLoop = true) (h2 : st.loopCount < P.loopLimit)
    (ha : P.abort st.checks = false) (hb : P.abort (st.checks + 1) = true) :
    runLoop P (fuel + 1) st evs =
      (.aborted st.toolResults st.lastResponse (st.loopCount + 1), none,
       evs ++ [.llm st.userPrompt, .abortDetected]) := by
  simp [runLoop, h1, h2, ha, hb]

lemma runLoop_noJson (P : Params) (fuel : Nat) (st : LoopSt) (evs : List Event)
    (h1 : st.continueLoop = true) (h2 : st.loopCount < P.loopLimit)
    (ha : P.abort st.checks = false) (hb : P.abort (st.checks + 1) = false)
    (hllm : P.llm (st.loopCount + 1) = .noJson) :
    runLoop P (fuel + 1) st evs =
      (.invalidJson (st.loopCount + 1), none, evs ++ [.llm st.userPrompt]) := by
  simp [runLoop, h1, h2, ha, hb, hllm]

lemma runLoop_badFields (P : Params) (fuel : Nat) (st : LoopSt) (evs : List Event)
    (h1 : st.continueLoop = true) (h2 : st.loopCount < P.loopLimit)
    (ha : P.abort st.checks = false) (hb : P.abort (st.checks + 1) = false)
    (hllm : P.llm (st.loopCount + 1) = .badFields) :
    runLoop P (fuel + 1) st evs =
      runLoop P fuel
        { toolResults := st.toolResults ++ [systemRetryEntry],
          lastResponse := st.lastResponse,
          userPrompt := .next P.prompt (st.toolResults ++ [systemRetryEntry]) none,
          continueLoop := st.continueLoop,
          loopCount := st.loopCount + 1,
          checks := st.checks + 2 } (evs ++ [.llm st.userPrompt]) := by
  simp [runLoop, h1, h2, ha, hb, hllm]

lemma runLoop_envelope (P : Params) (fuel : Nat) (st : LoopSt) (evs : List Event)
    (p : ParsedResponse) (rets : List ToolResult)
    (h1 : st.continueLoop = true) (h2 : st.loopCount < P.loopLimit)
    (ha : P.abort st.checks = false) (hb : P.abort (st.checks + 1) = false)
    (hllm : P.llm (st.loopCount + 1) = .envelope p rets) :
    runLoop P (fuel + 1) st evs =
      (match execActions P.abort (p.actions.getD []) rets (st.checks + 2) st.toolResults
          (evs ++ [.llm st.userPrompt]) with
       | .abortedAt _ acc evs2 => (.aborted acc (some p) (st.loopCount + 1), none, evs2)
       | .done checks acc evs2 =>
         match afterExec P p
             { toolResults := acc, lastResponse := some p, userPrompt := st.userPrompt,
               continueLoop := baseContinue p, loopCount := st.loopCount + 1,
               checks := checks } with
         | .inl (out, pend) => (out, pend, evs2)
         | .inr st7 => runLoop P fuel st7 evs2) := by
  simp [runLoop, h1, h2, ha, hb, hllm]

end Orchestrator

namespace Orchestrator

lemma afterExec_inl (P : Params) (p : ParsedResponse) (st5 : LoopSt)
    (out : Outcome) (pend : Option Continuation)
    (h : afterExec P p st5 = .inl (out, pend)) :
    out = .maxIterations st5.toolResults st5.lastResponse
        (contQuestion P.loopLimit) st5.loopCount ∧
      pend = some { toolResults := st5.toolResults,
                    resumePrompt := .next P.prompt st5.toolResults (some p),
                    originalPrompt := P.prompt, loopCount := st5.loopCount } := by
  unfold afterExec at h
  dsimp only at h
  split_ifs at h <;> simp_all

lemma finalize_shape (st : LoopSt) (evs : List Event) :
    (finalize st evs).2.2 = evs ∧ (finalize st evs).2.1 = none ∧
      (∀ tr lr lc, (finalize st evs).1 ≠ .aborted tr lr lc) ∧
      (∀ tr lr fa lc, (finalize st evs).1 ≠ .maxIterations tr lr fa lc) := by
  unfold finalize
  cases h : st.lastResponse with
  | none => simp
  | some p =>
    dsimp only
    split_ifs <;> simp

end Orchestrator

namespace Orchestrator

lemma runLoop_shape (P : Params) :
    ∀ (fuel : Nat) (st : LoopSt) (evs : List Event),
      (cleanExt evs (runLoop P fuel st evs).2.2 ∧
        (∀ tr lr lc, (runLoop P fuel st evs).1 ≠ .aborted tr lr lc) ∧
        (∀ tr lr fa lc, (runLoop P fuel st evs).1 ≠ .maxIterations tr lr fa lc) ∧
        (runLoop P fuel st evs).2.1 = none) ∨
      (∃ mid, (runLoop P fuel st evs).2.2 = evs ++ mid ++ [.abortDetected] ∧
        Event.abortDetected ∉ mid ∧
        (∃ tr lr lc, (runLoop P fuel st evs).1 = .aborted tr lr lc) ∧
        (runLoop P fuel st evs).2.1 = none) ∨
      (cleanExt evs (runLoop P fuel st evs).2.2 ∧
        ∃ tr lr lc, (runLoop P fuel st evs).1 =
            .maxIterations tr lr (contQuestion P.loopLimit) lc ∧
          (runLoop P fuel st evs).2.1 =
            some { toolResults := tr, resumePrompt := .next P.prompt tr lr,
                   originalPrompt := P.prompt, loopCount := lc }) := by
  intro fuel
  induction fuel with
  | zero =>
    intro st evs
    obtain ⟨he, hp, hna, hnm⟩ := finalize_shape st evs
    left
    exact ⟨by show cleanExt evs (finalize st evs).2.2; rw [he]; exact cleanExt_refl evs,
           hna, hnm, hp⟩
  | succ fuel ih =>
    intro st evs
    by_cases hcond : st.continueLoop = true ∧ st.loopCount < P.loopLimit
    case neg =>
      rw [runLoop_stop P fuel st evs hcond]
      obtain ⟨he, hp, hna, hnm⟩ := finalize_shape st evs
      left
      exact ⟨by rw [he]; exact cleanExt_refl evs, hna, hnm, hp⟩
    case pos =>
      obtain ⟨h1, h2⟩ := hcond
      by_cases ha : P.abort st.checks = true
      · rw [runLoop_abort_top P fuel st evs h1 h2 ha]
        exact Or.inr (Or.inl ⟨[], by simp, by simp, ⟨_, _, _, rfl⟩, rfl⟩)
      · replace ha : P.abort st.checks = false := by simpa using ha
        by_cases hb : P.abort (st.checks + 1) = true
        · rw [runLoop_abort_postLlm P fuel st evs h1 h2 ha hb]
          exact Or.inr (Or.inl ⟨[.llm st.userPrompt], by simp, by simp, ⟨_, _, _, rfl⟩, rfl⟩)
        · replace hb : P.abort (st.checks + 1) = false := by simpa using hb
          cases hllm : P.llm (st.loopCount + 1) with
          | noJson =>
            rw [runLoop_noJson P fuel st evs h1 h2 ha hb hllm]
            exact Or.inl ⟨cleanExt_llm evs st.userPrompt, by simp, by simp, rfl⟩
          | badFields =>
            rw [runLoop_badFields P fuel st evs h1 h2 ha hb hllm]
            rcases ih _ (evs ++ [.llm st.userPrompt]) with
              ⟨hc, hna, hnm, hp⟩ | ⟨mid, hm, hnm', hab, hp⟩ | ⟨hc, tr, lr, lc, hout, hp⟩
            · exact Or.inl ⟨cleanExt_trans (cleanExt_llm evs st.userPrompt) hc, hna, hnm, hp⟩
            · refine Or.inr (Or.inl ⟨.llm st.userPrompt :: mid, ?_, ?_, hab, hp⟩)
              · rw [hm]; simp
              · simp [hnm']
            · exact Or.inr (Or.inr
                ⟨cleanExt_trans (cleanExt_llm evs st.userPrompt) hc, tr, lr, lc, hout, hp⟩)
          | envelope p rets =>
            rw [runLoop_envelope P fuel st evs p rets h1 h2 ha hb hllm]
            cases hex : execActions P.abort (p.actions.getD []) rets (st.checks + 2)
                st.toolResults (evs ++ [.llm st.userPrompt]) with
            | abortedAt ch acc evs2 =>
              obtain ⟨mid, hm, hnm'⟩ :=
                (execActions_events P.abort _ _ _ _ _).2 ch acc evs2 hex
              refine Or.inr (Or.inl ⟨.llm st.userPrompt :: mid, ?_, ?_, ⟨_, _, _, rfl⟩, rfl⟩)
              · dsimp only; rw [hm]; simp
              · simp [hnm']
            | done ch acc evs2 =>
              have hcl : cleanExt (evs ++ [.llm st.userPrompt]) evs2 :=
                (execActions_events P.abort _ _ _ _ _).1 ch acc evs2 hex
              dsimp only
              cases hae : afterExec P p
                  { toolResults := acc, lastResponse := some p, userPrompt := st.userPrompt,
                    continueLoop := baseContinue p, loopCount := st.loopCount + 1,
                    checks := ch } with
              | inl op =>
                obtain ⟨out, pend⟩ := op
                obtain ⟨hout, hpend⟩ := afterExec_inl P p _ out pend hae
                refine Or.inr (Or.inr
                  ⟨cleanExt_trans (cleanExt_llm evs st.userPrompt) hcl,
                   acc, some p, st.loopCount + 1, ?_, ?_⟩)
                · dsimp only; rw [hout]
                · dsimp only; rw [hpend]
              | inr st7 =>
                rcases ih st7 evs2 with
                  ⟨hc, hna, hnm, hp⟩ | ⟨mid, hm, hnm', hab, hp⟩ | ⟨hc, tr, lr, lc, hout, hp⟩
                · exact Or.inl
                    ⟨cleanExt_trans (cleanExt_trans (cleanExt_llm evs st.userPrompt) hcl) hc,
                     hna, hnm, hp⟩
                · obtain ⟨tailE, hte, htn⟩ := hcl
                  refine Or.inr (Or.inl ⟨.llm st.userPrompt :: (tailE ++ mid), ?_, ?_, hab, hp⟩)
                  · rw [hm, hte]; simp
                  · simp [htn, hnm']
                · exact Or.inr (Or.inr
                    ⟨cleanExt_trans (cleanExt_trans (cleanExt_llm evs st.userPrompt) hcl) hc,
                     tr, lr, lc, hout, hp⟩)

end Orchestrator

namespace Orchestrator

lemma runLoop_grows (P : Params) (fuel : Nat) (st : LoopSt) (evs : List Event) :
    ∃ tail, (runLoop P fuel st evs).2.2 = evs ++ tail := by
  rcases runLoop_shape P fuel st evs with ⟨⟨t, ht, -⟩, -⟩ | ⟨mid, hm, -⟩ | ⟨⟨t, ht, -⟩, -⟩
  · exact ⟨t, ht⟩
  · exact ⟨mid ++ [.abortDetected], by rw [hm]; simp⟩
  · exact ⟨t, ht⟩

lemma runLoop_first_llm (P : Params) (fuel : Nat) (st : LoopSt) (evs : List Event)
    (h1 : st.continueLoop = true) (h2 : st.loopCount < P.loopLimit)
    (ha : P.abort st.checks = false) :
    ∃ tail, (runLoop P (fuel + 1) st evs).2.2 = evs ++ [.llm st.userPrompt] ++ tail := by
  by_cases hb : P.abort (st.checks + 1) = true
  · rw [runLoop_abort_postLlm P fuel st evs h1 h2 ha hb]
    exact ⟨[.abortDetected], by simp⟩
  · replace hb : P.abort (st.checks + 1) = false := by simpa using hb
    cases hllm : P.llm (st.loopCount + 1) with
    | noJson =>
      rw [runLoop_noJson P fuel st evs h1 h2 ha hb hllm]
      exact ⟨[], by simp⟩
    | badFields =>
      rw [runLoop_badFields P fuel st evs h1 h2 ha hb hllm]
      obtain ⟨t, ht⟩ := runLoop_grows P fuel _ (evs ++ [.llm st.userPrompt])
      exact ⟨t, by rw [ht]; try simp⟩
    | envelope p rets =>
      rw [runLoop_envelope P fuel st evs p rets h1 h2 ha hb hllm]
      cases hex : execActions P.abort (p.actions.getD []) rets (st.checks + 2)
          st.toolResults (evs ++ [.llm st.userPrompt]) with
      | abortedAt ch acc evs2 =>
        obtain ⟨mid, hm, -⟩ := (execActions_events P.abort _ _ _ _ _).2 ch acc evs2 hex
        exact ⟨mid ++ [.abortDetected], by dsimp only; rw [hm]; try simp⟩
      | done ch acc evs2 =>
        obtain ⟨tailE, hte, -⟩ := (execActions_events P.abort _ _ _ _ _).1 ch acc evs2 hex
        dsimp only
        cases hae : afterExec P p
            { toolResults := acc, lastResponse := some p, userPrompt := st.userPrompt,
              continueLoop := baseContinue p, loopCount := st.loopCount + 1,
              checks := ch } with
        | inl op =>
          obtain ⟨out, pend⟩ := op
          exact ⟨tailE, by dsimp only; rw [hte]; try simp⟩
        | inr st7 =>
          obtain ⟨t, ht⟩ := runLoop_grows P fuel st7 evs2
          exact ⟨tailE ++ t, by dsimp only; rw [ht, hte]; try simp⟩

end Orchestrator

namespace Orchestrator

lemma execEntries_length_le (acts : List PAction) :
    ∀ rets, (execEntries acts rets).length ≤
      (acts.filter (fun a => a.type == "tool_call")).length := by
  induction acts with
  | nil => intro rets; simp [execEntries]
  | cons a rest ih =>
    intro rets
    simp only [execEntries, List.filter_cons]
    by_cases hx : (a.type == "tool_call" && a.tool != "") = true
    · have hty : (a.type == "tool_call") = true := by
        simp only [Bool.and_eq_true] at hx; exact hx.1
      rw [if_pos hx, hty]
      simp only [if_true, List.length_cons]
      exact Nat.succ_le_succ (ih rets.tail)
    · rw [if_neg hx]
      cases hty : (a.type == "tool_call")
      · simp only [Bool.false_eq_true, if_false]
        exact ih rets
      · simp only [if_true, List.length_cons]
        exact Nat.le_succ_of_le (ih rets)

lemma execEntries_pos (acts : List PAction) :
    ∀ rets, execEntries acts rets ≠ [] →
      0 < (acts.filter (fun a => a.type == "tool_call")).length := by
  induction acts with
  | nil => intro rets h; simp [execEntries] at h
  | cons a rest ih =>
    intro rets h
    simp only [List.filter_cons]
    by_cases hx : (a.type == "tool_call" && a.tool != "") = true
    · have hty : (a.type == "tool_call") = true := by
        simp only [Bool.and_eq_true] at hx; exact hx.1
      rw [hty]
      simp
    · simp only [execEntries] at h
      rw [if_neg hx] at h
      have hpos := ih rets h
      cases hty : (a.type == "tool_call")
      · simpa using hpos
      · simp

lemma any_window (prior pushed : List ToolEntry) (n : Nat)
    (hn : pushed.length ≤ n) (h : pushed.any entryFailed = true) :
    (((prior ++ pushed).drop ((prior ++ pushed).length - n)).any entryFailed) = true := by
  have hle : (prior ++ pushed).length - n ≤ prior.length := by
    simp only [List.length_append]; omega
  rw [List.drop_append_of_le_length hle]
  simp only [List.any_append, h, Bool.or_true]

lemma execEvents_llmCount (acts : List PAction) : llmCount (execEvents acts) = 0 := by
  induction acts with
  | nil => simp [execEvents, llmCount]
  | cons a rest ih =>
    by_cases hx : (a.type == "tool_call" && a.tool != "") = true <;>
      simp [execEvents, hx, llmCount, List.countP_cons] at ih ⊢ <;> exact ih

lemma llmCount_append (a b : List Event) : llmCount (a ++ b) = llmCount a + llmCount b :=
  List.countP_append _ _ _

/-- One envelope iteration whose final continue decision is true and whose
loop count stays under the limit leads to another LLM call: the central
continuation lemma for the loop-decision and failure-forcing claims. -/
lemma envelope_iteration_continues (P : Params) (fuel : Nat) (st : LoopSt)
    (evs : List Event) (p : ParsedResponse) (rets : List ToolResult)
    (h1 : st.continueLoop = true) (hlt : st.loopCount + 1 < P.loopLimit)
    (habort : ∀ i, P.abort i = false)
    (hllm : P.llm (st.loopCount + 1) = .envelope p rets)
    (hdec : (baseContinue p ||
      (decide (0 < iterationToolCount p) &&
        ((st.toolResults ++ execEntries (p.actions.getD []) rets).drop
          ((st.toolResults ++ execEntries (p.actions.getD []) rets).length -
            iterationToolCount p)).any entryFailed)) = true) :
    llmCount (runLoop P (fuel + 2) st evs).2.2 ≥ llmCount evs + 2 := by
  have h2 : st.loopCount < P.loopLimit := by omega
  rw [runLoop_envelope P (fuel + 1) st evs p rets h1 h2 (habort _) (habort _) hllm]
  obtain ⟨ch, hch⟩ := execActions_no_abort P.abort habort (p.actions.getD []) rets
    (st.checks + 2) st.toolResults (evs ++ [.llm st.userPrompt])
  rw [hch]
  dsimp only
  have hforced : forcedContinue p
      { toolResults := st.toolResults ++ execEntries (p.actions.getD []) rets,
        lastResponse := some p, userPrompt := st.userPrompt,
        continueLoop := baseContinue p, loopCount := st.loopCount + 1,
        checks := ch } = true := hdec
  rw [afterExec_go P p _ hforced hlt]
  dsimp only
  obtain ⟨tail, htail⟩ := runLoop_first_llm P fuel
    { toolResults := st.toolResults ++ execEntries (p.actions.getD []) rets,
      lastResponse := some p,
      userPrompt := .next P.prompt
        (st.toolResults ++ execEntries (p.actions.getD []) rets) (some p),
      continueLoop := true,
      loopCount := st.loopCount + 1,
      checks := ch }
    (evs ++ [.llm st.userPrompt] ++ execEvents (p.actions.getD []))
    rfl hlt (habort _)
  rw [htail]
  simp only [llmCount_append, execEvents_llmCount, llmCount, List.countP_cons,
    List.countP_nil]
  simp
  omega

end Orchestrator
namespace Orchestrator

/-- Parameters of a run whose abort flag is set from the start. -/
def C4P : Params := ⟨"go", 3, fun _ => .noJson, fun _ => true⟩

end Orchestrator

open Orchestrator in
/-- C4: once an abort is pending, the prompt chain initiates no further
tool calls and no further LLM turns. Every run whose event trace records
an abort detection ends the trace at that detection, the outcome is
aborted and no continuation is saved; the abort flag is checked at the
top of each iteration and immediately after LLM completion, returning the
partial tool results, the last parsed response and the loop count; and
the per-action loop checks the flag before every tool execution,
returning immediately with the accumulated results when it is set. -/
theorem C4_abort_stops_run :
    (∀ (pending : Option Continuation) (P : Params),
      Event.abortDetected ∈ (runPrompt pending P).2.2 →
        ∃ pre, (runPrompt pending P).2.2 = pre ++ [Event.abortDetected] ∧
          Event.abortDetected ∉ pre ∧
          (∃ tr lr lc, (runPrompt pending P).1 = .aborted tr lr lc) ∧
          (runPrompt pending P).2.1 = none) ∧
    (∀ (P : Params) (fuel : Nat) (st : LoopSt) (evs : List Event),
      st.continueLoop = true → st.loopCount < P.loopLimit →
      P.abort st.checks = true →
      runLoop P (fuel + 1) st evs =
        (.aborted st.toolResults st.lastResponse (st.loopCount + 1), none,
         evs ++ [.abortDetected])) ∧
    (∀ (P : Params) (fuel : Nat) (st : LoopSt) (evs : List Event),
      st.continueLoop = true → st.loopCount < P.loopLimit →
      P.abort st.checks = false → P.abort (st.checks + 1) = true →
      runLoop P (fuel + 1) st evs =
        (.aborted st.toolResults st.lastResponse (st.loopCount + 1), none,
         evs ++ [.llm st.userPrompt, .abortDetected])) ∧
    (∀ (ab : Nat → Bool) (a : PAction) (rest : List PAction)
       (rets : List ToolResult) (checks : Nat) (acc : List ToolEntry)
       (evs : List Event), ab checks = true →
      execActions ab (a :: rest) rets checks acc evs =
        .abortedAt checks acc (evs ++ [Event.abortDetected])) := by
  refine ⟨?_, ?_, ?_, ?_⟩
  · intro pending P hmem
    unfold runPrompt at hmem ⊢
    rcases runLoop_shape P P.loopLimit (initState pending P) [] with
      ⟨⟨t, ht, hnt⟩, -, -, -⟩ | ⟨mid, hm, hnm, hab, hp⟩ | ⟨⟨t, ht, hnt⟩, -, -, -, -, -⟩
    · rw [ht] at hmem; simp at hmem; exact absurd hmem hnt
    · exact ⟨mid, by rw [hm]; simp, hnm, hab, hp⟩
    · rw [ht] at hmem; simp at hmem; exact absurd hmem hnt
  · intro P fuel st evs h1 h2 ha
    exact runLoop_abort_top P fuel st evs h1 h2 ha
  · intro P fuel st evs h1 h2 ha hb
    exact runLoop_abort_postLlm P fuel st evs h1 h2 ha hb
  · intro ab a rest rets checks acc evs h
    simp [execActions, h]

open Orchestrator in
/-- Witness for C4 at concrete runs: an always-aborting run ends its trace
at the detection with an aborted outcome; the loop-top and post-LLM checks
and the per-action check fire at concrete states. -/
theorem C4_witness :
    (∃ pre, (runPrompt none C4P).2.2 = pre ++ [Event.abortDetected] ∧
      Event.abortDetected ∉ pre ∧
      (∃ tr lr lc, (runPrompt none C4P).1 = .aborted tr lr lc) ∧
      (runPrompt none C4P).2.1 = none) ∧
    runLoop C4P 1 (initState none C4P) [] =
      (.aborted [] none 1, none, [.abortDetected]) ∧
    runLoop ⟨"go", 3, fun _ => .noJson, fun n => n != 0⟩ 1
        (initState none ⟨"go", 3, fun _ => .noJson, fun n => n != 0⟩) [] =
      (.aborted [] none 1, none, [.llm (.initial "go"), .abortDetected]) ∧
    execActions (fun _ => true) [⟨"tool_call", "BashTool", .jnull⟩] [] 0 [] [] =
      .abortedAt 0 [] [.abortDetected] :=
  ⟨C4_abort_stops_run.1 none C4P (by decide),
   C4_abort_stops_run.2.1 C4P 0 (initState none C4P) [] rfl (by decide) rfl,
   C4_abort_stops_run.2.2.1 ⟨"go", 3, fun _ => .noJson, fun n => n != 0⟩ 0
     (initState none ⟨"go", 3, fun _ => .noJson, fun n => n != 0⟩) [] rfl (by decide) rfl rfl,
   C4_abort_stops_run.2.2.2 (fun _ => true) ⟨"tool_call", "BashTool", .jnull⟩ [] [] 0 [] []
     rfl⟩
namespace Orchestrator

/-- Parameters of a run whose every LLM response yields no extractable
JSON. -/
def C5P : Params := ⟨"hi", 5, fun _ => .noJson, fun _ => false⟩

end Orchestrator

open Orchestrator in
/-- C5 counterexample: a response from which no JSON can be extracted
terminates the run with an invalid-JSON error after a single LLM call; no
synthetic retry entry is injected and no further iteration occurs, so the
no-JSON parse failure does not loop as claimed. -/
theorem C5_counterexample :
    runPrompt none C5P = (.invalidJson 1, none, [.llm (.initial "hi")]) ∧
    llmCount (runPrompt none C5P).2.2 = 1 ∧
    (∀ tr, (runPrompt none C5P).1 ≠ .completed tr none 1) :=
  ⟨rfl, rfl, fun _ h => Outcome.noConfusion h⟩

open Orchestrator in
/-- C5 amended: the two parse-failure paths. A response with no
extractable JSON terminates the run with an invalid-JSON outcome after
the LLM call that produced it; a response whose JSON lacks every
canonical field instead appends the synthetic system retry entry to
tool_results and performs another iteration, whose LLM call receives the
state prompt holding the updated tool_results and a null last response. -/
theorem C5_parse_failure_paths :
    (∀ (P : Params) (fuel : Nat) (st : LoopSt) (evs : List Event),
      st.continueLoop = true → st.loopCount < P.loopLimit →
      P.abort st.checks = false → P.abort (st.checks + 1) = false →
      P.llm (st.loopCount + 1) = .noJson →
      runLoop P (fuel + 1) st evs =
        (.invalidJson (st.loopCount + 1), none, evs ++ [.llm st.userPrompt])) ∧
    (∀ (P : Params) (fuel : Nat) (st : LoopSt) (evs : List Event),
      st.continueLoop = true → st.loopCount < P.loopLimit →
      P.abort st.checks = false → P.abort (st.checks + 1) = false →
      P.llm (st.loopCount + 1) = .badFields →
      runLoop P (fuel + 1) st evs =
        runLoop P fuel
          { toolResults := st.toolResults ++ [systemRetryEntry],
            lastResponse := st.lastResponse,
            userPrompt := .next P.prompt (st.toolResults ++ [systemRetryEntry]) none,
            continueLoop := st.continueLoop,
            loopCount := st.loopCount + 1,
            checks := st.checks + 2 } (evs ++ [.llm st.userPrompt])) ∧
    (∀ (P : Params) (fuel : Nat) (st : LoopSt) (evs : List Event),
      st.continueLoop = true → st.loopCount + 1 < P.loopLimit →
      P.abort st.checks = false → P.abort (st.checks + 1) = false →
      P.abort (st.checks + 2) = false →
      P.llm (st.loopCount + 1) = .badFields →
      ∃ tail, (runLoop P (fuel + 2) st evs).2.2 =
        evs ++ [.llm st.userPrompt,
                .llm (.next P.prompt (st.toolResults ++ [systemRetryEntry]) none)] ++ tail) := by
  refine ⟨?_, ?_, ?_⟩
  · intro P fuel st evs h1 h2 ha hb hllm
    exact runLoop_noJson P fuel st evs h1 h2 ha hb hllm
  · intro P fuel st evs h1 h2 ha hb hllm
    exact runLoop_badFields P fuel st evs h1 h2 ha hb hllm
  · intro P fuel st evs h1 h2 ha hb hc hllm
    rw [runLoop_badFields P (fuel + 1) st evs h1 (by omega) ha hb hllm]
    obtain ⟨tail, htail⟩ := runLoop_first_llm P fuel
      { toolResults := st.toolResults ++ [systemRetryEntry],
        lastResponse := st.lastResponse,
        userPrompt := .next P.prompt (st.toolResults ++ [systemRetryEntry]) none,
        continueLoop := st.continueLoop,
        loopCount := st.loopCount + 1,
        checks := st.checks + 2 } (evs ++ [.llm st.userPrompt]) h1 h2 hc
    exact ⟨tail, by rw [htail]; simp⟩

open Orchestrator in
/-- Witness for C5 at concrete runs: the always-no-JSON run terminates
with the invalid-JSON outcome, and a first bad-fields response leads to a
second LLM call carrying the injected system retry entry. -/
theorem C5_witness :
    runLoop C5P 5 (initState none C5P) [] =
      (.invalidJson 1, none, [] ++ [.llm (.initial "hi")]) ∧
    (∃ tail, (runLoop ⟨"hi", 5, fun _ => .badFields, fun _ => false⟩ 5
        (initState none ⟨"hi", 5, fun _ => .badFields, fun _ => false⟩) []).2.2 =
      [] ++ [.llm (.initial "hi"),
             .llm (.next "hi" ([] ++ [systemRetryEntry]) none)] ++ tail) :=
  ⟨C5_parse_failure_paths.1 C5P 4 (initState none C5P) [] rfl (by decide) rfl rfl rfl,
   C5_parse_failure_paths.2.2 ⟨"hi", 5, fun _ => .badFields, fun _ => false⟩ 3
     (initState none ⟨"hi", 5, fun _ => .badFields, fun _ => false⟩) []
     rfl (by decide) rfl rfl rfl rfl⟩
namespace Orchestrator

lemma itc_eq (p : ParsedResponse) :
    iterationToolCount p =
      ((p.actions.getD []).filter (fun a => a.type == "tool_call")).length := by
  unfold iterationToolCount
  cases h : p.actions <;> simp [h]

/-- The parsed response of an iteration whose single tool call fails while
the model sets continue to false and supplies a final answer. -/
def C2p : ParsedResponse := ⟨some [⟨"tool_call", "BashTool", .jnull⟩], "done", false⟩

/-- The scripted failing return of that tool call. -/
def C2rets : List ToolResult := [⟨some false, some "boom"⟩]

/-- The parsed response the run stops on afterwards. -/
def C2stop : ParsedResponse := ⟨some [], "done", false⟩

/-- Parameters whose first response is the failing iteration and whose
later responses stop. -/
def C2P : Params :=
  ⟨"do", 3, fun n => if n == 1 then .envelope C2p C2rets else .envelope C2stop [],
   fun _ => false⟩

end Orchestrator

open Orchestrator in
/-- C2: when an envelope iteration executes at least one tool call, some
pushed result fails the success-false-or-truthy-error test, and the model
itself decided to stop (its base continue decision is false), the
orchestrator forces continuation: with no abort pending and the loop
limit not yet reached, at least one further LLM call follows the failing
iteration. -/
theorem C2_failure_forces_continuation (P : Params) (fuel : Nat) (st : LoopSt)
    (evs : List Event) (p : ParsedResponse) (rets : List ToolResult)
    (h1 : st.continueLoop = true) (hlt : st.loopCount + 1 < P.loopLimit)
    (habort : ∀ i, P.abort i = false)
    (hllm : P.llm (st.loopCount + 1) = .envelope p rets)
    (hbase : baseContinue p = false)
    (hexec : execEntries (p.actions.getD []) rets ≠ [])
    (hfail : (execEntries (p.actions.getD []) rets).any entryFailed = true) :
    llmCount (runLoop P (fuel + 2) st evs).2.2 ≥ llmCount evs + 2 := by
  have hitc : 0 < iterationToolCount p := by
    rw [itc_eq]; exact execEntries_pos _ _ hexec
  have hlen : (execEntries (p.actions.getD []) rets).length ≤ iterationToolCount p := by
    rw [itc_eq]; exact execEntries_length_le _ _
  have hwin := any_window st.toolResults (execEntries (p.actions.getD []) rets)
    (iterationToolCount p) hlen hfail
  exact envelope_iteration_continues P fuel st evs p rets h1 hlt habort hllm
    (by rw [hbase, Bool.false_or, decide_eq_true hitc, Bool.true_and]; exact hwin)

open Orchestrator in
/-- Witness for C2 at a concrete run: the first iteration calls BashTool,
which fails with success false and error boom, the model sets continue to
false with final answer done, and the run still records at least two LLM
calls. -/
theorem C2_witness :
    llmCount (runLoop C2P 3 (initState none C2P) []).2.2 ≥
      llmCount ([] : List Event) + 2 :=
  C2_failure_forces_continuation C2P 1 (initState none C2P) [] C2p C2rets
    rfl (by decide) (fun _ => rfl) rfl (by decide) (by decide) (by decide)
namespace Orchestrator

lemma runLoop_of_stop (P : Params) (fuel : Nat) (st : LoopSt) (evs : List Event)
    (h : st.continueLoop = false) : runLoop P fuel st evs = finalize st evs := by
  cases fuel with
  | zero => rfl
  | succ fuel => exact runLoop_stop P fuel st evs (by simp [h])

/-- The continue decision an envelope iteration ends with, as a function
of the parsed response and the tool results accumulated after executing
its actions: the base decision, or tool calls present with a failure in
the inspected window. -/
def decisionOf (p : ParsedResponse) (acc : List ToolEntry) : Bool :=
  baseContinue p ||
    (decide (0 < iterationToolCount p) &&
      (acc.drop (acc.length - iterationToolCount p)).any entryFailed)

/-- A response with continue false, a nonempty final answer and one
failing tool call: the claimed termination condition holds for it, yet
the loop continues. -/
def C1p1 : ParsedResponse := ⟨some [⟨"tool_call", "BashTool", .jnull⟩], "done", false⟩

/-- The stopping response of the second iteration. -/
def C1p2 : ParsedResponse := ⟨some [], "done", false⟩

/-- Parameters whose first response is C1p1 with a failing return and
whose later responses stop. -/
def C1P : Params :=
  ⟨"do", 3,
   fun n => if n == 1 then .envelope C1p1 [⟨some false, some "boom"⟩]
            else .envelope C1p2 [],
   fun _ => false⟩

/-- Parameters whose every response is the stopping C1p2. -/
def C1Q : Params := ⟨"do", 3, fun _ => .envelope C1p2 [], fun _ => false⟩

/-- A response requesting continuation with no actions. -/
def C1pGo : ParsedResponse := ⟨none, "", true⟩

/-- Parameters with loop limit one whose responses always continue. -/
def C1R : Params := ⟨"work", 1, fun _ => .envelope C1pGo [], fun _ => false⟩

end Orchestrator

open Orchestrator in
/-- C1 counterexample: in the run scripted by C1P, the first iteration's
envelope has continue not true and a nonempty final answer, so the
claimed termination condition holds and the loop should stop after it;
yet the run performs a second LLM call, because the iteration's tool call
failed and failure forcing overrides the decision. -/
theorem C1_counterexample :
    C1p1.continueField = false ∧ hasFinalAnswer C1p1 = true ∧
    (runPrompt none C1P).1 =
      .completed [⟨"BashTool", .jnull, some ⟨some false, some "boom"⟩, none⟩]
        (some C1p2) 2 ∧
    llmCount (runPrompt none C1P).2.2 = 2 :=
  ⟨rfl, rfl, rfl, rfl⟩

open Orchestrator in
/-- C1 amended: the base continue decision of an envelope iteration is
continue exactly true, or tool calls present with a blank final answer;
the loop's effective decision additionally forces continuation when the
iteration executed tool calls and one of the inspected results failed.
When the effective decision is false the run finalizes with exactly the
events so far; when it is true under the limit another LLM call follows;
when it is true at the limit the run returns the max-iterations outcome
with the saved continuation. -/
theorem C1_loop_decision (P : Params) (fuel : Nat) (st : LoopSt)
    (evs : List Event) (p : ParsedResponse) (rets : List ToolResult)
    (h1 : st.continueLoop = true) (h2 : st.loopCount < P.loopLimit)
    (habort : ∀ i, P.abort i = false)
    (hllm : P.llm (st.loopCount + 1) = .envelope p rets) :
    baseContinue p = (p.continueField || (hasToolCalls p && !hasFinalAnswer p)) ∧
    (decisionOf p (st.toolResults ++ execEntries (p.actions.getD []) rets) = false →
      runLoop P (fuel + 1) st evs =
        finalize
          { toolResults := st.toolResults ++ execEntries (p.actions.getD []) rets,
            lastResponse := some p, userPrompt := st.userPrompt,
            continueLoop := baseContinue p, loopCount := st.loopCount + 1, checks := 0 }
          (evs ++ [.llm st.userPrompt] ++ execEvents (p.actions.getD []))) ∧
    (decisionOf p (st.toolResults ++ execEntries (p.actions.getD []) rets) = true →
      st.loopCount + 1 < P.loopLimit →
      llmCount (runLoop P (fuel + 2) st evs).2.2 ≥ llmCount evs + 2) ∧
    (decisionOf p (st.toolResults ++ execEntries (p.actions.getD []) rets) = true →
      P.loopLimit = st.loopCount + 1 →
      runLoop P (fuel + 1) st evs =
        (.maxIterations (st.toolResults ++ execEntries (p.actions.getD []) rets) (some p)
           (contQuestion P.loopLimit) (st.loopCount + 1),
         some { toolResults := st.toolResults ++ execEntries (p.actions.getD []) rets,
                resumePrompt := .next P.prompt
                  (st.toolResults ++ execEntries (p.actions.getD []) rets) (some p),
                originalPrompt := P.prompt, loopCount := st.loopCount + 1 },
         evs ++ [.llm st.userPrompt] ++ execEvents (p.actions.getD []))) := by
  refine ⟨rfl, ?_, ?_, ?_⟩
  · intro hd
    have hb : baseContinue p = false := by
      have hcopy := hd
      unfold decisionOf at hcopy
      exact (Bool.or_eq_false_iff.mp hcopy).1
    obtain ⟨ch, hch⟩ := execActions_no_abort P.abort habort (p.actions.getD []) rets
      (st.checks + 2) st.toolResults (evs ++ [.llm st.userPrompt])
    rw [runLoop_envelope P fuel st evs p rets h1 h2 (habort _) (habort _) hllm, hch]
    dsimp only
    have hstop : forcedContinue p
        { toolResults := st.toolResults ++ execEntries (p.actions.getD []) rets,
          lastResponse := some p, userPrompt := st.userPrompt,
          continueLoop := baseContinue p, loopCount := st.loopCount + 1,
          checks := ch } = false := hd
    rw [afterExec_stop P p _ hstop]
    dsimp only
    rw [runLoop_of_stop P fuel _ _ hb]
    rfl
  · intro hd hlt
    exact envelope_iteration_continues P fuel st evs p rets h1 hlt habort hllm hd
  · intro hd heq
    obtain ⟨ch, hch⟩ := execActions_no_abort P.abort habort (p.actions.getD []) rets
      (st.checks + 2) st.toolResults (evs ++ [.llm st.userPrompt])
    rw [runLoop_envelope P fuel st evs p rets h1 h2 (habort _) (habort _) hllm, hch]
    dsimp only
    have hgo : forcedContinue p
        { toolResults := st.toolResults ++ execEntries (p.actions.getD []) rets,
          lastResponse := some p, userPrompt := st.userPrompt,
          continueLoop := baseContinue p, loopCount := st.loopCount + 1,
          checks := ch } = true := hd
    rw [afterExec_max P p _ hgo (le_of_eq heq)]

open Orchestrator in
/-- Witness for C1 at concrete runs: the decision formula at C1p2, a stop
run finalizing after one iteration, a forced continuation with at least
two LLM calls on the failing C1P run, and a limit-one run returning the
max-iterations outcome with its saved continuation. -/
theorem C1_witness :
    baseContinue C1p2 = (C1p2.continueField || (hasToolCalls C1p2 && !hasFinalAnswer C1p2)) ∧
    runLoop C1Q 3 (initState none C1Q) [] =
      finalize
        { toolResults := [] ++ execEntries (C1p2.actions.getD []) [],
          lastResponse := some C1p2, userPrompt := .initial "do",
          continueLoop := baseContinue C1p2, loopCount := 0 + 1, checks := 0 }
        ([] ++ [.llm (.initial "do")] ++ execEvents (C1p2.actions.getD [])) ∧
    llmCount (runLoop C1P 3 (initState none C1P) []).2.2 ≥
      llmCount ([] : List Event) + 2 ∧
    runLoop C1R 1 (initState none C1R) [] =
      (.maxIterations ([] ++ execEntries (C1pGo.actions.getD []) []) (some C1pGo)
         (contQuestion 1) (0 + 1),
       some { toolResults := [] ++ execEntries (C1pGo.actions.getD []) [],
              resumePrompt := .next "work" ([] ++ execEntries (C1pGo.actions.getD []) [])
                (some C1pGo),
              originalPrompt := "work", loopCount := 0 + 1 },
       [] ++ [.llm (.initial "work")] ++ execEvents (C1pGo.actions.getD [])) :=
  ⟨(C1_loop_decision C1Q 2 (initState none C1Q) [] C1p2 []
      rfl (by decide) (fun _ => rfl) rfl).1,
   (C1_loop_decision C1Q 2 (initState none C1Q) [] C1p2 []
      rfl (by decide) (fun _ => rfl) rfl).2.1 (by decide),
   (C1_loop_decision C1P 1 (initState none C1P) [] C1p1 [⟨some false, some "boom"⟩]
      rfl (by decide) (fun _ => rfl) rfl).2.2.1 (by decide) (by decide),
   (C1_loop_decision C1R 0 (initState none C1R) [] C1pGo []
      rfl (by decide) (fun _ => rfl) rfl).2.2.2 (by decide) rfl⟩
namespace Orchestrator

lemma initState_affirmative (c : Continuation) (P : Params)
    (h : isAffirmativeResponse P.prompt = true) :
    initState (some c) P =
      { toolResults := c.toolResults, lastResponse := none,
        userPrompt := c.resumePrompt, continueLoop := true,
        loopCount := 0, checks := 0 } := by
  simp [initState, h]

lemma initState_not_affirmative (c : Continuation) (P : Params)
    (h : isAffirmativeResponse P.prompt = false) :
    initState (some c) P = initState none P := by
  simp [initState, h]

/-- A response requesting continuation, driving a limit-one run into the
pending-continuation branch. -/
def C3pGo : ParsedResponse := ⟨none, "", true⟩

/-- Parameters with loop limit one whose responses always continue. -/
def C3P : Params := ⟨"work", 1, fun _ => .envelope C3pGo [], fun _ => false⟩

/-- The continuation such a run saves. -/
def C3c : Continuation := ⟨[], .next "work" [] (some C3pGo), "work", 1⟩

/-- Parameters of a follow-up prompt that is an affirmative token. -/
def C3Py : Params :=
  ⟨"yes", 1, fun _ => .envelope ⟨some [], "done", false⟩ [], fun _ => false⟩

/-- Parameters of a follow-up prompt that is not affirmative. -/
def C3Pn : Params :=
  ⟨"no thanks", 1, fun _ => .envelope ⟨some [], "done", false⟩ [], fun _ => false⟩

end Orchestrator

open Orchestrator in
/-- C3: a run that ends with the max-iterations outcome delivers the
step-limit question with N equal to the loop limit and saves a pending
continuation holding the accumulated tool results, the resume prompt
built from them and the last response, the original prompt, and the loop
count; on the next prompt, an affirmative one restores the saved tool
results and resume prompt into the start state and the first LLM call of
the resumed run receives the resume prompt, while a non-affirmative one
runs exactly as a fresh prompt; the recognized tokens include yes, yep,
ok, continue, proceed and go ahead, after lowercasing and stripping of
closing punctuation, and a declining prompt is not recognized. -/
theorem C3_step_limit_continuation :
    (∀ (pending : Option Continuation) (P : Params) tr lr fa lc,
      (runPrompt pending P).1 = .maxIterations tr lr fa lc →
        fa = contQuestion P.loopLimit ∧
        (runPrompt pending P).2.1 =
          some { toolResults := tr, resumePrompt := .next P.prompt tr lr,
                 originalPrompt := P.prompt, loopCount := lc }) ∧
    contQuestion 25 =
      "I\x27ve hit my step limit (25 steps) and there\x27s still work to do. Would you like me to continue?" ∧
    (∀ (c : Continuation) (P : Params), isAffirmativeResponse P.prompt = true →
      initState (some c) P =
        { toolResults := c.toolResults, lastResponse := none,
          userPrompt := c.resumePrompt, continueLoop := true,
          loopCount := 0, checks := 0 }) ∧
    (∀ (c : Continuation) (P : Params), isAffirmativeResponse P.prompt = true →
      0 < P.loopLimit → P.abort 0 = false →
      ∃ tail, (runPrompt (some c) P).2.2 = .llm c.resumePrompt :: tail) ∧
    (∀ (c : Continuation) (P : Params), isAffirmativeResponse P.prompt = false →
      runPrompt (some c) P = runPrompt none P) ∧
    (isAffirmativeResponse "yes" = true ∧ isAffirmativeResponse "yep" = true ∧
     isAffirmativeResponse "ok" = true ∧ isAffirmativeResponse "continue" = true ∧
     isAffirmativeResponse "proceed" = true ∧ isAffirmativeResponse "go ahead" = true ∧
     isAffirmativeResponse "Yes." = true ∧ isAffirmativeResponse "no thanks" = false) := by
  refine ⟨?_, rfl, ?_, ?_, ?_, by decide⟩
  · intro pending P tr lr fa lc hout0
    unfold runPrompt at hout0 ⊢
    rcases runLoop_shape P P.loopLimit (initState pending P) [] with
      ⟨-, -, hnm, -⟩ | ⟨-, -, -, ⟨tr', lr', lc', hab⟩, -⟩ |
      ⟨-, tr', lr', lc', hout, hp⟩
    · exact absurd hout0 (hnm tr lr fa lc)
    · rw [hout0] at hab; exact Outcome.noConfusion hab
    · rw [hout0] at hout
      injection hout with e1 e2 e3 e4
      refine ⟨e3, ?_⟩
      rw [hp, ← e1, ← e2, ← e4]
  · intro c P h
    exact initState_affirmative c P h
  · intro c P h hpos h0
    unfold runPrompt
    rw [initState_affirmative c P h]
    cases hL : P.loopLimit with
    | zero => omega
    | succ k =>
      obtain ⟨tail, ht⟩ := runLoop_first_llm P k
        { toolResults := c.toolResults, lastResponse := none,
          userPrompt := c.resumePrompt, continueLoop := true,
          loopCount := 0, checks := 0 } [] rfl
        (show 0 < P.loopLimit from hpos) (show P.abort 0 = false from h0)
      exact ⟨tail, by rw [ht]; simp⟩
  · intro c P h
    unfold runPrompt
    rw [initState_not_affirmative c P h]

open Orchestrator in
/-- Witness for C3 at concrete runs: a limit-one run yields the step
question and saves the continuation C3c; an affirmative follow-up
restores the saved state and its first LLM call receives the resume
prompt; a declining follow-up runs exactly as fresh. -/
theorem C3_witness :
    (contQuestion 1 = contQuestion C3P.loopLimit ∧
      (runPrompt none C3P).2.1 =
        some { toolResults := [], resumePrompt := .next C3P.prompt [] (some C3pGo),
               originalPrompt := C3P.prompt, loopCount := 1 }) ∧
    initState (some C3c) C3Py =
      { toolResults := C3c.toolResults, lastResponse := none,
        userPrompt := C3c.resumePrompt, continueLoop := true,
        loopCount := 0, checks := 0 } ∧
    (∃ tail, (runPrompt (some C3c) C3Py).2.2 = .llm C3c.resumePrompt :: tail) ∧
    runPrompt (some C3c) C3Pn = runPrompt none C3Pn :=
  ⟨C3_step_limit_continuation.1 none C3P [] (some C3pGo) (contQuestion 1) 1 rfl,
   C3_step_limit_continuation.2.2.1 C3c C3Py (by decide),
   C3_step_limit_continuation.2.2.2.1 C3c C3Py (by decide) (by decide) rfl,
   C3_step_limit_continuation.2.2.2.2.1 C3c C3Pn (by decide)⟩
